import Mathlib

/-!
Verification of the measurement-capture and log-correlation engine of the
`monitoring_and_analysis` repository, as a shallow embedding in Lean 4.

Source files embedded here:
  - `src/pymaap/analysis.py` (and its duplicate `src/results.py`):
    `load_all_log_lines`, `detect_recent_dense_block`, `parse_log_lines`
  - `src/monitoring.py`: `sanitizer`, `Timer.__call__` (the wrapper and its
    inner `safe_serialize`), `ErrorCatcher.__call__` (and `_safe_serialize`),
    `get_metrics_start`, `get_metrics_end`

Conventions of the embedding:
  - Python strings are modelled as `List Char` (`Str`); Python `len` and
    slicing act on code points, as `List.length` / `List.take` do.
  - Python floats are modelled as exact rationals (`ℚ`); `datetime` values
    are modelled as microseconds since year 1 (`ℤ`), which preserves the
    ordering and the `total_seconds` arithmetic of `datetime`.
  - Fallible Python code (raising `ValueError` / `KeyError`) is modelled
    with `Except PyError`.
  - `re` character classes are modelled over ASCII (`\w`, `\s`, `\d`); the
    repository only ever feeds ASCII log data through them.
-/

abbrev Str := List Char

/-- Errors raised by the analysis-side functions: `ValueError` from
`datetime.strptime` / `float`, `KeyError` from
`pandas.DataFrame.sort_values` on a column-less frame, and `TypeError`
from `"timestamp" in record` when `json.loads` returns a non-iterable. -/
inductive PyError where
  | valueError
  | keyError
  | typeError
  deriving DecidableEq, Repr

/-- Python's `\s` (ASCII range): the whitespace characters. -/
def isSpacePy (c : Char) : Bool :=
  c = ' ' || c = '\t' || c = '\n' || c = '\r' || c = '\x0b' || c = '\x0c'

/-- Character class `[^\s:]` of the `func` group of the message grammar. -/
def isFuncChar (c : Char) : Bool :=
  !isSpacePy c && c ≠ ':'

/-- Character class `[\d.]` of the float groups of the message grammar. -/
def isFloatChar (c : Char) : Bool :=
  c.isDigit || c = '.'

/-- Python's `\w` (ASCII range): letters, digits and underscore. -/
def isWordChar (c : Char) : Bool :=
  c.isAlphanum || c = '_'

/-- Character class `[\w-]` of the `id` group of the message grammar. -/
def isIdChar (c : Char) : Bool :=
  isWordChar c || c = '-'

/-- Numeric value of a string of decimal digit characters
(the `int(...)` conversions applied to `\d+` regex groups). -/
def digitsVal (s : Str) : ℕ :=
  s.foldl (fun a c => a * 10 + (c.toNat - 48)) 0

/-- One decimal digit rendered as a character. -/
def digitChar10 (d : ℕ) : Char := Char.ofNat (48 + d)

/-- Decimal rendering of a natural number, fuelled recursion. -/
def natStrAux : ℕ → ℕ → Str
  | 0, _ => []
  | fuel + 1, n =>
    if n < 10 then [digitChar10 n]
    else natStrAux fuel (n / 10) ++ [digitChar10 (n % 10)]

/-- Decimal rendering of a natural number (Python's `%d` / `str(int)`). -/
def natStr (n : ℕ) : Str := natStrAux (n + 1) n

theorem digitChar10_isDigit {d : ℕ} (h : d < 10) : (digitChar10 d).isDigit = true := by
  interval_cases d <;> decide

theorem natStrAux_digits : ∀ fuel n, ∀ c ∈ natStrAux fuel n, c.isDigit = true := by
  intro fuel
  induction fuel with
  | zero => intro n c hc; simp [natStrAux] at hc
  | succ fuel ih =>
    intro n c hc
    by_cases h : n < 10
    · simp [natStrAux, h] at hc
      subst hc; exact digitChar10_isDigit h
    · simp [natStrAux, h] at hc
      rcases hc with hc | hc
      · exact ih _ _ hc
      · subst hc; exact digitChar10_isDigit (Nat.mod_lt _ (by norm_num))

theorem natStr_digits (n : ℕ) : ∀ c ∈ natStr n, c.isDigit = true :=
  natStrAux_digits (n + 1) n

theorem natStrAux_ne_nil : ∀ fuel n, natStrAux (fuel + 1) n ≠ [] := by
  intro fuel n
  by_cases h : n < 10 <;> simp [natStrAux, h]

theorem natStr_ne_nil (n : ℕ) : natStr n ≠ [] := natStrAux_ne_nil n n

/-! ## Timestamp parsing

`datetime.strptime(s, "%Y-%m-%d %H:%M:%S,%f")`, as used by
`detect_recent_dense_block` and `parse_log_lines`.  CPython's `_strptime`
compiles each directive to a regex fragment (`%Y` ↦ `\d{4}`,
`%m` ↦ `1[0-2]|0[1-9]|[1-9]`, `%d` ↦ `3[01]|[1-2]\d|0[1-9]|[1-9]`,
`%H` ↦ `2[0-3]|[0-1]\d|\d`, `%M` ↦ `[0-5]\d|\d`, `%S` ↦ `6[01]|[0-5]\d|\d`,
`%f` ↦ `[0-9]{1,6}`), requires the whole input to be consumed, pads the
fraction to six digits, and finally constructs a `datetime`, which validates
the calendar (day against month length, second at most 59, year at least 1).
The result is modelled as microseconds since an epoch, which is faithful to
`datetime` comparison and subtraction. -/

def isLeapYear (y : ℕ) : Bool :=
  y % 4 = 0 && (y % 100 ≠ 0 || y % 400 = 0)

def daysInMonth (y m : ℕ) : ℕ :=
  if m = 2 then (if isLeapYear y then 29 else 28)
  else if m = 4 || m = 6 || m = 9 || m = 11 then 30
  else 31

/-- Days in the months strictly before month `m` of year `y`. -/
def daysBeforeMonth (y m : ℕ) : ℕ :=
  (List.range m).foldl (fun a i => if i = 0 then a else a + daysInMonth y i) 0

/-- Days in the years strictly before year `y` (proleptic Gregorian). -/
def daysBeforeYear (y : ℕ) : ℕ :=
  365 * (y - 1) + (y - 1) / 4 - (y - 1) / 100 + (y - 1) / 400

/-- Microseconds since the epoch `0001-01-01 00:00:00`. -/
def toMicros (y mo d h mi s f : ℕ) : ℤ :=
  ((((((daysBeforeYear y + daysBeforeMonth y mo + (d - 1)) * 24 + h) * 60 + mi) * 60
      + s) : ℕ) * 1000000 + f : ℕ)

def getDigit : Str → Option (ℕ × Str)
  | c :: rest => if c.isDigit then some (c.toNat - 48, rest) else none
  | [] => none

/-- Exactly four digits (`%Y`). -/
def get4Digits (l : Str) : Option (ℕ × Str) := do
  let (a, l) ← getDigit l
  let (b, l) ← getDigit l
  let (c, l) ← getDigit l
  let (d, l) ← getDigit l
  pure (((a * 10 + b) * 10 + c) * 10 + d, l)

/-- A one-or-two digit field: two digits are consumed when the two-digit
value satisfies `ok2`, otherwise a single digit is consumed when it
satisfies `ok1`.  This mirrors the ordered regex alternations `_strptime`
generates for `%m`, `%d`, `%H`, `%M`, `%S`: in this format every field is
followed by a non-digit separator, so the regex's backtracking from the
two-digit branch to the one-digit branch can never produce a match that the
greedy choice misses. -/
def get2or1 (ok2 : ℕ → Bool) (ok1 : ℕ → Bool) : Str → Option (ℕ × Str)
  | c :: c' :: rest =>
    if c.isDigit && c'.isDigit && ok2 ((c.toNat - 48) * 10 + (c'.toNat - 48)) then
      some ((c.toNat - 48) * 10 + (c'.toNat - 48), rest)
    else if c.isDigit && ok1 (c.toNat - 48) then some (c.toNat - 48, c' :: rest)
    else none
  | [c] => if c.isDigit && ok1 (c.toNat - 48) then some (c.toNat - 48, []) else none
  | [] => none

def litChar (c : Char) : Str → Option Str
  | x :: rest => if x = c then some rest else none
  | [] => none

/-- Up to six fraction digits (`%f`), greedy, at least one. -/
def getFrac : Str → Option (ℕ × Str)
  | l =>
    let ds := (l.takeWhile (·.isDigit)).take 6
    if ds = [] then none
    else some (digitsVal ds * 10 ^ (6 - ds.length), l.drop ds.length)

/-- `datetime.strptime(s, "%Y-%m-%d %H:%M:%S,%f")`, returning microseconds
since the epoch, or `none` where CPython raises `ValueError`. -/
def parseTimestamp (l : Str) : Option ℤ := do
  let (y, l) ← get4Digits l
  let l ← litChar '-' l
  let (mo, l) ← get2or1 (fun n => 1 ≤ n && n ≤ 12) (fun n => 1 ≤ n) l
  let l ← litChar '-' l
  let (d, l) ← get2or1 (fun n => 1 ≤ n && n ≤ 31) (fun n => 1 ≤ n) l
  let l ← litChar ' ' l
  let (h, l) ← get2or1 (fun n => n ≤ 23) (fun _ => true) l
  let l ← litChar ':' l
  let (mi, l) ← get2or1 (fun n => n ≤ 59) (fun _ => true) l
  let l ← litChar ':' l
  let (s, l) ← get2or1 (fun n => n ≤ 61) (fun _ => true) l
  let l ← litChar ',' l
  let (f, l) ← getFrac l
  -- "unconverted data remains" check, then datetime() calendar validation
  if l = [] && 1 ≤ y && d ≤ daysInMonth y mo && s ≤ 59 then
    pure (toMicros y mo d h mi s f)
  else none

example : (parseTimestamp "2024-01-02 03:04:05,123456".data).isSome = true := by decide
example : parseTimestamp "2024-01-02 03:04:05.123456".data = none := by decide
example : parseTimestamp "2024-02-30 03:04:05,123456".data = none := by decide
example : (parseTimestamp "2024-2-3 3:4:5,1".data).isSome = true := by decide
example : parseTimestamp "garbage".data = none := by decide

/-! ## Dense-block detector

`detect_recent_dense_block(log_lines, min_cluster_size=25, gap_seconds=30)`
from `src/pymaap/analysis.py` (identical in `src/results.py`). -/

/-- A structured log record as consumed by the analysis module: the
`timestamp` and `message` fields of one JSON log line. -/
structure LogLine where
  timestamp : Str
  message : Str
  deriving DecidableEq, Repr

/-- `(nxt - curr).total_seconds() <= gap_seconds` on microsecond datetimes:
the exact rational `(nxt - curr) / 10^6` compared with the gap threshold.
Stated via `Rat.divInt` so that the comparison evaluates by `decide`;
`gapLE_iff` below gives the direct `/`-form. -/
def gapLE (curr nxt : ℤ) (gap : ℚ) : Bool :=
  decide (Rat.divInt (nxt - curr) 1000000 ≤ gap)

theorem gapLE_iff (curr nxt : ℤ) (gap : ℚ) :
    gapLE curr nxt gap = true ↔ ((nxt - curr : ℤ) : ℚ) / 1000000 ≤ gap := by
  rw [gapLE, decide_eq_true_eq, Rat.divInt_eq_div]
  norm_num

/-- Insertion into a sorted list of integers (ascending). -/
def insertInt (x : ℤ) : List ℤ → List ℤ
  | [] => [x]
  | y :: ys => if x ≤ y then x :: y :: ys else y :: insertInt x ys

/-- Python's `sorted` on a list of datetimes (modelled as microseconds). -/
def sortInt : List ℤ → List ℤ
  | [] => []
  | x :: xs => insertInt x (sortInt xs)

/-- The cluster-accumulation loop of `detect_recent_dense_block`:
`clusters`/`cluster` are the two mutable lists, `curr` is the left element
of the current `zip(timestamps, timestamps[1:])` pair, and the final
`if len(cluster) >= min_cluster_size` commit is folded into the base case. -/
def clusterLoop (gap : ℚ) (minSize : ℕ) (clusters : List (List ℤ)) (cluster : List ℤ)
    (curr : ℤ) : List ℤ → List (List ℤ)
  | [] => if minSize ≤ cluster.length then clusters ++ [cluster] else clusters
  | nxt :: rest =>
    if gapLE curr nxt gap then clusterLoop gap minSize clusters (cluster ++ [nxt]) nxt rest
    else
      clusterLoop gap minSize
        (if minSize ≤ cluster.length then clusters ++ [cluster] else clusters)
        [nxt] nxt rest

/-- The body of `detect_recent_dense_block` after the timestamps have been
parsed: sort, accumulate clusters, and return the `min`/`max` of the most
recent committed cluster (`(None, None)` when there is none). -/
def denseCore (minSize : ℕ) (gap : ℚ) (ts : List ℤ) : Option ℤ × Option ℤ :=
  match sortInt ts with
  | [] => (none, none)
  | t :: rest =>
    match (clusterLoop gap minSize [] [t] t rest).getLast? with
    | none => (none, none)
    | some c => (c.min?, c.max?)

/-- `detect_recent_dense_block`: parse every line's timestamp (raising
`ValueError` on the first failure, as the list comprehension does), then
run the clustering. -/
def detect_recent_dense_block (lines : List LogLine) (minSize : ℕ := 25)
    (gap : ℚ := 30) : Except PyError (Option ℤ × Option ℤ) :=
  match lines.mapM (fun l => parseTimestamp l.timestamp) with
  | none => .error .valueError
  | some ts => .ok (denseCore minSize gap ts)


/-- Modelled from the spec: the maximal run of timestamps continuing `t`
(each consecutive gap at most `gap` seconds), paired with the remaining
maximal runs after it. -/
def splitRunsCore (gap : ℚ) (t : ℤ) : List ℤ → List ℤ × List (List ℤ)
  | [] => ([], [])
  | t' :: rest =>
    let (r, rs) := splitRunsCore gap t' rest
    if gapLE t t' gap then (t' :: r, rs) else ([], (t' :: r) :: rs)

/-- Modelled from the spec: split a (sorted) timestamp list into maximal
runs in which each consecutive gap is at most `gap` seconds. -/
def splitRuns (gap : ℚ) : List ℤ → List (List ℤ)
  | [] => []
  | t :: rest =>
    let (r, rs) := splitRunsCore gap t rest
    (t :: r) :: rs

/-- Modelled from the spec: sort ascending, split into maximal runs, keep
runs of length at least `minSize`, and return the minimum and maximum
timestamp of the last qualifying run; `(none, none)` if there is none. -/
def specDetect (minSize : ℕ) (gap : ℚ) (ts : List ℤ) : Option ℤ × Option ℤ :=
  let runs := (splitRuns gap (sortInt ts)).filter (fun r => minSize ≤ r.length)
  match runs.getLast? with
  | none => (none, none)
  | some r => (r.min?, r.max?)

/-- The imperative cluster loop computes exactly the committed maximal runs:
the run in progress is `cur` extended by the rest of the current run, and
each run is committed when its length reaches `m`. -/
theorem clusterLoop_eq (gap : ℚ) (m : ℕ) :
    ∀ (l : List ℤ) (cs : List (List ℤ)) (cur : List ℤ) (curr : ℤ),
      clusterLoop gap m cs cur curr l =
        cs ++ (((cur ++ (splitRunsCore gap curr l).1) :: (splitRunsCore gap curr l).2).filter
          (fun c => m ≤ c.length)) := by
  intro l
  induction l with
  | nil =>
    intro cs cur curr
    by_cases hm : m ≤ cur.length <;>
      simp [clusterLoop, splitRunsCore, List.filter, hm, decide_eq_true_eq]
  | cons nxt rest ih =>
    intro cs cur curr
    by_cases hg : gapLE curr nxt gap
    · rw [clusterLoop, if_pos hg, ih]
      simp only [splitRunsCore, hg, if_pos]
      simp
    · rw [clusterLoop, if_neg (by simp [hg]), ih]
      simp only [splitRunsCore, hg, if_neg, Bool.false_eq_true, not_false_eq_true]
      by_cases hm : m ≤ cur.length <;>
        simp [List.filter, hm, decide_eq_true_eq, List.append_assoc]

/-- The committed clusters of `detect_recent_dense_block` are exactly the
maximal runs of length at least `m`, in temporal order. -/
theorem clusters_eq_filtered_runs (gap : ℚ) (m : ℕ) (t : ℤ) (rest : List ℤ) :
    clusterLoop gap m [] [t] t rest =
      (splitRuns gap (t :: rest)).filter (fun c => m ≤ c.length) := by
  rw [clusterLoop_eq]
  simp [splitRuns]

/-- `denseCore` coincides with the spec-side detector on every timestamp
list. -/
theorem denseCore_eq_specDetect (m : ℕ) (gap : ℚ) (ts : List ℤ) :
    denseCore m gap ts = specDetect m gap ts := by
  unfold denseCore specDetect
  cases h : sortInt ts with
  | nil => simp [h, splitRuns]
  | cons t rest =>
    dsimp only
    rw [clusters_eq_filtered_runs]

/-! ## Claim C1: the detector refines the spec algorithm -/

/-- Claim C1: for every input list of log lines whose timestamps parse,
`detect_recent_dense_block` sorts the timestamps ascending, splits them
into maximal runs in which each consecutive gap is at most `gap_seconds`,
keeps only runs of length at least `min_cluster_size`, and returns the
minimum and maximum timestamp of the last (most recent) qualifying run;
if the input is empty or no run qualifies, it returns `(None, None)`. -/
theorem detect_dense_block_refines_spec (lines : List LogLine) (m : ℕ) (g : ℚ)
    (ts : List ℤ) (h : lines.mapM (fun l => parseTimestamp l.timestamp) = some ts) :
    detect_recent_dense_block lines m g = .ok (specDetect m g ts) := by
  unfold detect_recent_dense_block
  rw [h]
  dsimp only
  rw [denseCore_eq_specDetect]

theorem detect_dense_block_refines_spec_witness :
    ([⟨"2024-01-01 00:00:00,000000".data, "m1".data⟩,
      ⟨"2024-01-01 00:00:10,000000".data, "m2".data⟩] : List LogLine).mapM
        (fun l => parseTimestamp l.timestamp)
      = some [63839664000000000, 63839664010000000] ∧
    detect_recent_dense_block
      [⟨"2024-01-01 00:00:00,000000".data, "m1".data⟩,
       ⟨"2024-01-01 00:00:10,000000".data, "m2".data⟩] 1 30
      = .ok (specDetect 1 30 [63839664000000000, 63839664010000000]) :=
  ⟨by decide,
   detect_dense_block_refines_spec _ 1 30 _ (by decide)⟩

/-! ## Claim C7: inclusive boundaries of the detector -/

/-- Sortedness of a timestamp list (ascending), as a boolean chain. -/
def chainLE : List ℤ → Bool
  | [] => true
  | [_] => true
  | x :: y :: r => x ≤ y && chainLE (y :: r)

/-- All consecutive gaps within the threshold, as a boolean chain. -/
def chainGap (g : ℚ) : List ℤ → Bool
  | [] => true
  | [_] => true
  | x :: y :: r => gapLE x y g && chainGap g (y :: r)

theorem splitRunsCore_dense (g : ℚ) (t : ℤ) (rest : List ℤ)
    (h : chainGap g (t :: rest)) : splitRunsCore g t rest = (rest, []) := by
  induction rest generalizing t with
  | nil => rfl
  | cons t' r ih =>
    rw [chainGap] at h
    simp only [Bool.and_eq_true] at h
    rw [splitRunsCore, ih t' h.2]
    simp [h.1]

theorem insertInt_le (x : ℤ) (l : List ℤ) (h : ∀ y ∈ l.head?, x ≤ y) :
    insertInt x l = x :: l := by
  cases l with
  | nil => rfl
  | cons y ys => simp [insertInt, h y rfl]

theorem sortInt_of_chainLE (l : List ℤ) (h : chainLE l) : sortInt l = l := by
  induction l with
  | nil => rfl
  | cons x xs ih =>
    cases xs with
    | nil => rfl
    | cons y ys =>
      rw [chainLE] at h
      simp only [Bool.and_eq_true, decide_eq_true_eq] at h
      rw [sortInt, ih h.2, insertInt_le]
      intro z hz
      simp at hz
      omega

/-- Claim C7: dense-block detector boundaries are inclusive.  A sorted run
of exactly `min_cluster_size` timestamps with all consecutive gaps within
the threshold qualifies (the size comparison is `>=`); a consecutive gap
exactly equal to `gap_seconds` keeps both timestamps in one run (the gap
comparison `gapLE` is `<=`, so a fully dense list forms a single run); and
a densely-packed run of exactly `min_cluster_size - 1` timestamps is
excluded from the result entirely. -/
theorem denseCore_inclusive_boundaries :
    (∀ (m : ℕ) (g : ℚ) (ts : List ℤ), 0 < m → chainLE ts → chainGap g ts →
        ts.length = m → denseCore m g ts = (ts.min?, ts.max?)) ∧
    (∀ (g : ℚ) (ts : List ℤ), chainGap g ts →
        splitRuns g ts = if ts.isEmpty then [] else [ts]) ∧
    (∀ (m : ℕ) (g : ℚ) (ts : List ℤ), chainLE ts → chainGap g ts →
        ts.length + 1 = m → denseCore m g ts = (none, none)) := by
  refine ⟨?_, ?_, ?_⟩
  · intro m g ts hm hs hg hlen
    cases ts with
    | nil => simp at hlen; omega
    | cons t rest =>
      unfold denseCore
      rw [sortInt_of_chainLE _ hs]
      dsimp only
      rw [clusters_eq_filtered_runs]
      rw [splitRuns, splitRunsCore_dense g t rest hg]
      simp only [List.filter]
      rw [show decide (m ≤ (t :: rest).length) = true by simp [hlen]]
      rfl
  · intro g ts hg
    cases ts with
    | nil => rfl
    | cons t rest => rw [splitRuns, splitRunsCore_dense g t rest hg]; rfl
  · intro m g ts hs hg hlen
    cases ts with
    | nil =>
      unfold denseCore
      simp [sortInt]
    | cons t rest =>
      unfold denseCore
      rw [sortInt_of_chainLE _ hs]
      dsimp only
      rw [clusters_eq_filtered_runs]
      rw [splitRuns, splitRunsCore_dense g t rest hg]
      simp only [List.filter]
      rw [show decide (m ≤ (t :: rest).length) = false by
        simp only [decide_eq_false_iff_not]
        omega]
      rfl

theorem denseCore_inclusive_boundaries_witness :
    denseCore 3 5 [0, 5000000, 10000000] = (some 0, some 10000000) ∧
    splitRuns 5 [0, 5000000, 10000000] = [[0, 5000000, 10000000]] ∧
    denseCore 3 5 [0, 5000000] = (none, none) :=
  ⟨(denseCore_inclusive_boundaries.1 3 5 [0, 5000000, 10000000]
      (by decide) (by decide) (by decide) (by decide)).trans (by decide),
   (denseCore_inclusive_boundaries.2.1 5 [0, 5000000, 10000000] (by decide)).trans
      (by decide),
   denseCore_inclusive_boundaries.2.2 3 5 [0, 5000000] (by decide) (by decide)
      (by decide)⟩

/-! ## The log-message grammar

The regex of `parse_log_lines`:

    (?P<func>[^\s:]+): (?P<type>start|end): wall=(?P<wall>[\d.]+)
    perf=(?P<perf>[\d.]+) id=(?P<id>[\w-]+)(?: duration=(?P<duration>[\d.]+)sec)?
    cpu=(?P<cpu>[\d.]+)% rss=(?P<rss>\d+) vms=(?P<vms>\d+)
    mem%=(?P<mem>[\d.]+) threads=(?P<threads>\d+) fds=(?P<fds>\d+)

applied with `pattern.search`, i.e. at the leftmost position where a match
exists, with trailing input permitted.  In this pattern every greedy
character class is followed by a literal whose first character the class
excludes, so greedy matching without backtracking into the classes is
exactly the regex semantics; the only genuine alternations are
`start|end` and the optional `duration` group, which are tried in order
with full backtracking below. -/

inductive Phase where
  | start
  | end'
  deriving DecidableEq, Repr

/-- The named groups of a successful match. -/
structure MatchGroups where
  func : Str
  phase : Phase
  wall : Str
  perf : Str
  id : Str
  duration : Option Str
  cpu : Str
  rss : Str
  vms : Str
  mem : Str
  threads : Str
  fds : Str
  deriving DecidableEq, Repr

/-- Greedy one-or-more character-class match (`[c]+`): the maximal nonempty
prefix of characters satisfying `p`, and the remaining input. -/
def chomp (p : Char → Bool) (l : Str) : Option (Str × Str) :=
  match l.takeWhile p with
  | [] => none
  | c :: a => some (c :: a, l.dropWhile p)

/-- A literal fragment of the pattern. -/
def lit : Str → Str → Option Str
  | [], l => some l
  | _ :: _, [] => none
  | c :: cs, x :: xs => if x = c then lit cs xs else none

/-- The fixed tail of the pattern, from `cpu=` to the final `fds` group. -/
def matchTail (l : Str) : Option (Str × Str × Str × Str × Str × Str) := do
  let l ← lit " cpu=".data l
  let (cpu, l) ← chomp isFloatChar l
  let l ← lit "% rss=".data l
  let (rss, l) ← chomp (·.isDigit) l
  let l ← lit " vms=".data l
  let (vms, l) ← chomp (·.isDigit) l
  let l ← lit " mem%=".data l
  let (mem, l) ← chomp isFloatChar l
  let l ← lit " threads=".data l
  let (th, l) ← chomp (·.isDigit) l
  let l ← lit " fds=".data l
  let (fds, _) ← chomp (·.isDigit) l
  pure (cpu, rss, vms, mem, th, fds)

/-- The optional `(?: duration=(?P<duration>[\d.]+)sec)?` group followed by
the tail: the group is tried first, and on failure of the group or of
anything after it the whole rest is retried without the group — the
regex's ordered backtracking. -/
def matchDurTail (l : Str) : Option (Option Str × (Str × Str × Str × Str × Str × Str)) :=
  match (do
    let l ← lit " duration=".data l
    let (dur, l) ← chomp isFloatChar l
    let l ← lit "sec".data l
    let t ← matchTail l
    pure (some dur, t)) with
  | some r => some r
  | none => (matchTail l).map (fun t => ((none : Option Str), t))

/-- One attempted match with the pattern anchored at the current position
(trailing input allowed). -/
def matchAt (l : Str) : Option MatchGroups := do
  let (func, l) ← chomp isFuncChar l
  let l ← lit ": ".data l
  let (ph, l) ← (match lit "start".data l with
    | some l => some (Phase.start, l)
    | none => (lit "end".data l).map (fun l => (Phase.end', l)))
  let l ← lit ": wall=".data l
  let (wall, l) ← chomp isFloatChar l
  let l ← lit " perf=".data l
  let (perf, l) ← chomp isFloatChar l
  let l ← lit " id=".data l
  let (id, l) ← chomp isIdChar l
  let (dur, cpu, rss, vms, mem, th, fds) ← matchDurTail l
  pure ⟨func, ph, wall, perf, id, dur, cpu, rss, vms, mem, th, fds⟩

/-- `pattern.search(message)`: the leftmost position admitting a match. -/
def matchSearch : Str → Option MatchGroups
  | [] => none
  | c :: rest =>
    match matchAt (c :: rest) with
    | some g => some g
    | none => matchSearch rest

example :
    (matchSearch "func: start: wall=1.0 perf=1.0 id=abc cpu=1.0% rss=1000 vms=2000 mem%=5.0 threads=2 fds=10".data).isSome
      = true := by decide
example :
    (matchSearch "func: end: wall=2.0 perf=2.0 id=abc duration=1.0sec cpu=2.0% rss=1100 vms=2100 mem%=6.0 threads=2 fds=10".data).map
        (fun g => g.phase) = some Phase.end' := by decide
example : matchSearch "Function `foo` executed in 0.5000 sec".data = none := by decide

/-! ## `parse_log_lines`

The record reconstructor of `src/pymaap/analysis.py` (duplicated in
`src/results.py`): filter lines to the `[start_time, end_time]` window,
match each message against the grammar, convert the matched groups
(`float`/`int`), group by `(func, id)` in a `defaultdict(dict)` keyed
per phase, keep groups having both phases, and sort by start time with
`pandas.DataFrame(...).sort_values("Start Time")`. -/

/-- Exact subtraction of two rationals, stated via `Rat.divInt` so that it
evaluates by `decide`; `qSub_eq` gives the ordinary `-` form. -/
def qSub (a b : ℚ) : ℚ :=
  Rat.divInt (a.num * (b.den : ℤ) - b.num * (a.den : ℤ)) ((a.den : ℤ) * (b.den : ℤ))

theorem qSub_eq (a b : ℚ) : qSub a b = a - b := by
  rw [qSub, Rat.divInt_eq_div]
  push_cast
  have ha : (a.num : ℚ) = a * (a.den : ℚ) :=
    (div_eq_iff (by positivity)).mp (Rat.num_div_den a)
  have hb : (b.num : ℚ) = b * (b.den : ℚ) :=
    (div_eq_iff (by positivity)).mp (Rat.num_div_den b)
  rw [div_eq_iff (by positivity), ha, hb]
  ring

/-- Python's `float(...)` applied to a string drawn from the class
`[\d.]+`: succeeds iff the string has at least one digit and at most one
dot (value = `intpart.fracpart`). -/
def parseFloat (s : Str) : Option ℚ :=
  let ip := s.takeWhile (·.isDigit)
  match s.drop ip.length with
  | [] => if ip.isEmpty then none else some (Rat.divInt (digitsVal ip) 1)
  | '.' :: frac =>
    if frac.all (·.isDigit) && !(ip.isEmpty && frac.isEmpty) then
      some (Rat.divInt (digitsVal ip * 10 ^ frac.length + digitsVal frac) (10 ^ frac.length))
    else none
  | _ => none

example : parseFloat "1.5".data = some (Rat.divInt 15 10) := by decide
example : parseFloat ".".data = none := by decide
example : parseFloat "1.2.3".data = none := by decide

/-- The per-line `parsed` dictionary of `parse_log_lines`. -/
structure ParsedEntry where
  wall : ℚ
  perf : ℚ
  cpu : ℚ
  rss : ℕ
  vms : ℕ
  memPercent : ℚ
  threads : ℕ
  fds : ℕ
  timestamp : ℤ
  duration : Option ℚ
  deriving DecidableEq, Repr

/-- `float(...)` conversion raising `ValueError` on failure. -/
def floatOf (s : Str) : Except PyError ℚ :=
  match parseFloat s with
  | some q => .ok q
  | none => .error .valueError

/-- Building the `parsed` dictionary from the matched groups: `float` and
`int` conversions plus the already-parsed line timestamp, and the
`if d["duration"]:` guard (the group, when present, is nonempty). -/
def toParsed (g : MatchGroups) (t : ℤ) : Except PyError ParsedEntry := do
  let wall ← floatOf g.wall
  let perf ← floatOf g.perf
  let cpu ← floatOf g.cpu
  let mem ← floatOf g.mem
  let dur ← match g.duration with
    | none => .ok (none : Option ℚ)
    | some ds => do
        let q ← floatOf ds
        .ok (some q)
  .ok ⟨wall, perf, cpu, digitsVal g.rss, digitsVal g.vms, mem,
       digitsVal g.threads, digitsVal g.fds, t, dur⟩

/-- The window filter
`[line for line in log_lines if start_time <= strptime(...) <= end_time]`:
the comprehension evaluates left to right and raises `ValueError` at the
first unparseable timestamp. -/
def filterWindow (st et : ℤ) : List LogLine → Except PyError (List LogLine)
  | [] => .ok []
  | l :: rest =>
    match parseTimestamp l.timestamp with
    | none => .error .valueError
    | some t => do
      let tail ← filterWindow st et rest
      if st ≤ t && t ≤ et then .ok (l :: tail) else .ok tail

/-- The two phase slots of one `execution_data[key]` dictionary:
`(start entry, end entry)`. -/
abbrev Slots := Option ParsedEntry × Option ParsedEntry

/-- `execution_data[key][d["type"]] = parsed`. -/
def setPhase (s : Slots) : Phase → ParsedEntry → Slots
  | .start, p => (some p, s.2)
  | .end', p => (s.1, some p)

/-- The insertion-ordered association list behind `defaultdict(dict)`:
update the existing entry for `key` in place, or append a fresh one. -/
def updateGroups : List ((Str × Str) × Slots) → (Str × Str) → Phase → ParsedEntry →
    List ((Str × Str) × Slots)
  | [], k, ph, p => [(k, setPhase (none, none) ph p)]
  | (k', s) :: rest, k, ph, p =>
    if k' = k then (k', setPhase s ph p) :: rest
    else (k', s) :: updateGroups rest k ph p

/-- The main loop of `parse_log_lines` over the filtered lines: search the
grammar in each message, convert the groups, and accumulate them into
`execution_data`. -/
def buildGroups (acc : List ((Str × Str) × Slots)) :
    List LogLine → Except PyError (List ((Str × Str) × Slots))
  | [] => .ok acc
  | l :: rest =>
    match matchSearch l.message with
    | none => buildGroups acc rest
    | some g =>
      match parseTimestamp l.timestamp with
      | none => .error .valueError
      | some t => do
        let p ← toParsed g t
        buildGroups (updateGroups acc (g.func, g.id) g.phase p) rest

/-- One row of the reconstructed call-record table. -/
structure CallRecord where
  function : Str
  callId : Str
  startTime : ℤ
  endTime : ℤ
  wallDuration : ℚ
  perfDuration : ℚ
  durationFromLog : Option ℚ
  startCpu : ℚ
  endCpu : ℚ
  startRss : ℕ
  endRss : ℕ
  startMem : ℚ
  endMem : ℚ
  startThreads : ℕ
  endThreads : ℕ
  startFds : ℕ
  endFds : ℕ
  deriving DecidableEq, Repr

/-- The row appended for a group holding both a start and an end entry. -/
def mkRecord (k : Str × Str) (s e : ParsedEntry) : CallRecord :=
  { function := k.1
    callId := k.2
    startTime := s.timestamp
    endTime := e.timestamp
    wallDuration := qSub e.wall s.wall
    perfDuration := qSub e.perf s.perf
    durationFromLog := e.duration
    startCpu := s.cpu
    endCpu := e.cpu
    startRss := s.rss
    endRss := e.rss
    startMem := s.memPercent
    endMem := e.memPercent
    startThreads := s.threads
    endThreads := e.threads
    startFds := s.fds
    endFds := e.fds }

/-- The `records` list: groups with both a `start` and an `end` entry, in
dictionary (insertion) order. -/
def extractRecords : List ((Str × Str) × Slots) → List CallRecord
  | [] => []
  | (k, (some s, some e)) :: rest => mkRecord k s e :: extractRecords rest
  | _ :: rest => extractRecords rest

/-- Stable insertion by ascending start time. -/
def insertRec (r : CallRecord) : List CallRecord → List CallRecord
  | [] => [r]
  | x :: xs => if r.startTime ≤ x.startTime then r :: x :: xs else x :: insertRec r xs

/-- `sort_values("Start Time")` on a nonempty record table. -/
def sortRecs : List CallRecord → List CallRecord
  | [] => []
  | r :: rs => insertRec r (sortRecs rs)

/-- `parse_log_lines(log_lines, start_time, end_time)`: returns the sorted
record table together with `filtered_lines`.  On an empty `records` list,
`pd.DataFrame([])` has no columns and `.sort_values("Start Time")` raises
`KeyError`. -/
def parse_log_lines (lines : List LogLine) (st et : ℤ) :
    Except PyError (List CallRecord × List LogLine) := do
  let filtered ← filterWindow st et lines
  let groups ← buildGroups [] filtered
  let records := extractRecords groups
  if records.isEmpty then .error .keyError
  else .ok (sortRecs records, filtered)

/-! ### Properties of the grouping and sorting machinery -/

/-- The line's timestamp parses and falls inside the analysis window. -/
def inWindow (st et : ℤ) (l : LogLine) : Prop :=
  ∃ t, parseTimestamp l.timestamp = some t ∧ st ≤ t ∧ t ≤ et

/-- The line's message matches the grammar with key `(f, i)` and the given
phase. -/
def matchesPhase (l : LogLine) (f i : Str) (ph : Phase) : Prop :=
  ∃ g, matchSearch l.message = some g ∧ g.func = f ∧ g.id = i ∧ g.phase = ph

def findSlot : List ((Str × Str) × Slots) → (Str × Str) → Option Slots
  | [], _ => none
  | (k', s) :: rest, k => if k' = k then some s else findSlot rest k

def slotHas (s : Slots) : Phase → Bool
  | .start => s.1.isSome
  | .end' => s.2.isSome

/-- The group keyed `k` holds an entry of phase `ph`. -/
def hasPhase (gs : List ((Str × Str) × Slots)) (k : Str × Str) (ph : Phase) : Bool :=
  match findSlot gs k with
  | none => false
  | some s => slotHas s ph

theorem except_ok_bind {α β : Type} (a : α) (f : α → Except PyError β) :
    (Except.ok a >>= f) = f a := rfl

theorem except_error_bind {e : PyError} {α β : Type} (f : α → Except PyError β) :
    (Except.error e >>= f) = Except.error e := rfl

theorem slotHas_setPhase (s : Slots) (phase ph : Phase) (p : ParsedEntry) :
    slotHas (setPhase s phase p) ph = (ph = phase || slotHas s ph) := by
  cases phase <;> cases ph <;> simp [setPhase, slotHas]

theorem findSlot_updateGroups (gs : List ((Str × Str) × Slots)) (key k : Str × Str)
    (ph : Phase) (p : ParsedEntry) :
    findSlot (updateGroups gs key ph p) k =
      if k = key then some (setPhase ((findSlot gs key).getD (none, none)) ph p)
      else findSlot gs k := by
  induction gs with
  | nil =>
    by_cases h : k = key
    · subst h; simp [updateGroups, findSlot]
    · simp [updateGroups, findSlot, h, Ne.symm h]
  | cons e rest ih =>
    obtain ⟨k', s⟩ := e
    by_cases h2 : k = key
    · subst h2
      by_cases h1 : k' = k
      · subst h1; simp [updateGroups, findSlot]
      · simp [updateGroups, findSlot, h1, ih]
    · by_cases h1 : k' = k
      · subst h1
        have h3 : ¬ k' = key := h2
        simp [updateGroups, findSlot, h3, h2]
      · by_cases h3 : k' = key
        · subst h3
          simp [updateGroups, findSlot, h1, h2]
        · simp [updateGroups, findSlot, h1, h2, h3, ih]

theorem hasPhase_updateGroups (gs : List ((Str × Str) × Slots)) (key k : Str × Str)
    (phase ph : Phase) (p : ParsedEntry) :
    hasPhase (updateGroups gs key phase p) k ph = true ↔
      (hasPhase gs k ph = true ∨ (k = key ∧ ph = phase)) := by
  rw [hasPhase, findSlot_updateGroups]
  by_cases hk : k = key
  · subst hk
    rw [if_pos rfl]
    dsimp only
    rw [slotHas_setPhase]
    cases hf : findSlot gs k with
    | none => cases ph <;> simp [hasPhase, hf, slotHas]
    | some s =>
      simp only [hasPhase, hf, Option.getD_some, true_and, Bool.or_eq_true,
        decide_eq_true_eq]
      exact or_comm
  · rw [if_neg hk]
    simp [hasPhase, hk]

theorem buildGroups_hasPhase :
    ∀ (ls : List LogLine) (acc out : List ((Str × Str) × Slots)),
      buildGroups acc ls = .ok out → ∀ (k : Str × Str) (ph : Phase),
        (hasPhase out k ph = true ↔
          (hasPhase acc k ph = true ∨ ∃ l ∈ ls, matchesPhase l k.1 k.2 ph)) := by
  intro ls
  induction ls with
  | nil =>
    intro acc out h k ph
    simp only [buildGroups, Except.ok.injEq] at h
    subst h
    simp
  | cons l rest ih =>
    intro acc out h k ph
    cases hm : matchSearch l.message with
    | none =>
      simp only [buildGroups, hm] at h
      rw [ih acc out h k ph]
      constructor
      · rintro (ha | ⟨l', hl', hm'⟩)
        · exact Or.inl ha
        · exact Or.inr ⟨l', List.mem_cons_of_mem _ hl', hm'⟩
      · rintro (ha | ⟨l', hl', hm'⟩)
        · exact Or.inl ha
        · rcases List.mem_cons.mp hl' with rfl | hl'
          · obtain ⟨g, hg, -⟩ := hm'
            rw [hm] at hg; cases hg
          · exact Or.inr ⟨l', hl', hm'⟩
    | some g =>
      cases ht : parseTimestamp l.timestamp with
      | none =>
        simp only [buildGroups, hm, ht] at h
        exact absurd h (by simp)
      | some t =>
        cases hp : toParsed g t with
        | error e =>
          simp only [buildGroups, hm, ht, hp, except_error_bind] at h
          exact absurd h (by simp)
        | ok p =>
          simp only [buildGroups, hm, ht, hp, except_ok_bind] at h
          rw [ih _ out h k ph, hasPhase_updateGroups]
          constructor
          · rintro ((ha | ⟨hk, hph⟩) | ⟨l', hl', hm'⟩)
            · exact Or.inl ha
            · exact Or.inr ⟨l, List.mem_cons_self l rest,
                g, hm, hk ▸ rfl, hk ▸ rfl, hph.symm⟩
            · exact Or.inr ⟨l', List.mem_cons_of_mem _ hl', hm'⟩
          · rintro (ha | ⟨l', hl', g', hg', hf, hi, hph⟩)
            · exact Or.inl (Or.inl ha)
            · rcases List.mem_cons.mp hl' with rfl | hl'
              · rw [hm] at hg'
                cases hg'
                exact Or.inl (Or.inr ⟨Prod.ext hf.symm hi.symm, hph.symm⟩)
              · exact Or.inr ⟨l', hl', g', hg', hf, hi, hph⟩

theorem mem_keys_updateGroups (gs : List ((Str × Str) × Slots)) (key k : Str × Str)
    (ph : Phase) (p : ParsedEntry) :
    k ∈ (updateGroups gs key ph p).map Prod.fst →
      k ∈ gs.map Prod.fst ∨ k = key := by
  induction gs with
  | nil =>
    intro h
    simp [updateGroups] at h
    exact Or.inr h
  | cons e rest ih =>
    obtain ⟨k', s⟩ := e
    by_cases hk' : k' = key
    · subst hk'
      intro h
      left
      simpa [updateGroups] using h
    · intro h
      simp only [updateGroups, if_neg hk', List.map_cons, List.mem_cons] at h
      rcases h with h | h
      · exact Or.inl (by simp [h])
      · rcases ih h with h | h
        · exact Or.inl (by simp [h])
        · exact Or.inr h

theorem nodup_keys_updateGroups (gs : List ((Str × Str) × Slots)) (key : Str × Str)
    (ph : Phase) (p : ParsedEntry) (h : (gs.map Prod.fst).Nodup) :
    ((updateGroups gs key ph p).map Prod.fst).Nodup := by
  induction gs with
  | nil => simp [updateGroups]
  | cons e rest ih =>
    obtain ⟨k', s⟩ := e
    simp only [List.map_cons, List.nodup_cons] at h
    by_cases hk' : k' = key
    · subst hk'
      simp only [updateGroups, List.map_cons, List.nodup_cons, if_true, eq_self_iff_true]
      simpa using h
    · simp only [updateGroups, if_neg hk', List.map_cons, List.nodup_cons]
      refine ⟨fun hmem => ?_, ih h.2⟩
      rcases mem_keys_updateGroups rest key k' ph p hmem with hm | hm
      · exact h.1 hm
      · exact hk' hm

theorem buildGroups_nodup :
    ∀ (ls : List LogLine) (acc out : List ((Str × Str) × Slots)),
      buildGroups acc ls = .ok out → (acc.map Prod.fst).Nodup →
        (out.map Prod.fst).Nodup := by
  intro ls
  induction ls with
  | nil =>
    intro acc out h hn
    simp only [buildGroups, Except.ok.injEq] at h
    exact h ▸ hn
  | cons l rest ih =>
    intro acc out h hn
    cases hm : matchSearch l.message with
    | none =>
      simp only [buildGroups, hm] at h
      exact ih acc out h hn
    | some g =>
      cases ht : parseTimestamp l.timestamp with
      | none =>
        simp only [buildGroups, hm, ht] at h
        exact absurd h (by simp)
      | some t =>
        cases hp : toParsed g t with
        | error e =>
          simp only [buildGroups, hm, ht, hp, except_error_bind] at h
          exact absurd h (by simp)
        | ok p =>
          simp only [buildGroups, hm, ht, hp, except_ok_bind] at h
          exact ih _ out h (nodup_keys_updateGroups acc _ _ p hn)

theorem findSlot_of_mem (gs : List ((Str × Str) × Slots)) (k : Str × Str) (s : Slots)
    (hn : (gs.map Prod.fst).Nodup) (hmem : (k, s) ∈ gs) : findSlot gs k = some s := by
  induction gs with
  | nil => cases hmem
  | cons e rest ih =>
    obtain ⟨k', s'⟩ := e
    simp only [List.map_cons, List.nodup_cons] at hn
    rcases List.mem_cons.mp hmem with h | h
    · injection h with h1 h2
      subst h1; subst h2
      simp [findSlot]
    · have hne : ¬ k' = k := by
        intro hk
        subst hk
        exact hn.1 (by simpa using List.mem_map_of_mem Prod.fst h)
      simp [findSlot, hne, ih hn.2 h]

theorem findSlot_mem (gs : List ((Str × Str) × Slots)) (k : Str × Str) (s : Slots)
    (h : findSlot gs k = some s) : (k, s) ∈ gs := by
  induction gs with
  | nil => cases h
  | cons e rest ih =>
    obtain ⟨k', s'⟩ := e
    by_cases hk : k' = k
    · subst hk
      simp only [findSlot] at h
      simp only [if_true, eq_self_iff_true, Option.some.injEq, if_pos] at h
      subst h
      exact List.mem_cons_self _ _
    · simp only [findSlot, if_neg hk] at h
      exact List.mem_cons_of_mem _ (ih h)

theorem mem_extractRecords (gs : List ((Str × Str) × Slots)) (r : CallRecord) :
    r ∈ extractRecords gs ↔
      ∃ k s e, (k, (some s, some e)) ∈ gs ∧ r = mkRecord k s e := by
  induction gs with
  | nil => simp [extractRecords]
  | cons entry rest ih =>
    obtain ⟨k, s1, s2⟩ := entry
    cases s1 with
    | none =>
      rw [show extractRecords ((k, (none, s2)) :: rest) = extractRecords rest from rfl, ih]
      constructor
      · rintro ⟨k', s, e, hm, hr⟩
        exact ⟨k', s, e, List.mem_cons_of_mem _ hm, hr⟩
      · rintro ⟨k', s, e, hm, hr⟩
        rcases List.mem_cons.mp hm with h | h
        · cases h
        · exact ⟨k', s, e, h, hr⟩
    | some s =>
      cases s2 with
      | none =>
        rw [show extractRecords ((k, (some s, none)) :: rest) = extractRecords rest from rfl,
          ih]
        constructor
        · rintro ⟨k', s', e, hm, hr⟩
          exact ⟨k', s', e, List.mem_cons_of_mem _ hm, hr⟩
        · rintro ⟨k', s', e, hm, hr⟩
          rcases List.mem_cons.mp hm with h | h
          · cases h
          · exact ⟨k', s', e, h, hr⟩
      | some e =>
        rw [show extractRecords ((k, (some s, some e)) :: rest)
            = mkRecord k s e :: extractRecords rest from rfl]
        constructor
        · intro hr
          rcases List.mem_cons.mp hr with hr | hr
          · exact ⟨k, s, e, List.mem_cons_self _ _, hr⟩
          · obtain ⟨k', s', e', hm, hr'⟩ := ih.mp hr
            exact ⟨k', s', e', List.mem_cons_of_mem _ hm, hr'⟩
        · rintro ⟨k', s', e', hm, hr⟩
          rcases List.mem_cons.mp hm with h | h
          · injection h with h1 h2
            injection h2 with h3 h4
            injection h3 with h5
            injection h4 with h6
            subst h1; subst h5; subst h6
            exact List.mem_cons.mpr (Or.inl hr)
          · exact List.mem_cons.mpr (Or.inr (ih.mpr ⟨k', s', e', h, hr⟩))

theorem exists_record_key_iff (gs : List ((Str × Str) × Slots))
    (hn : (gs.map Prod.fst).Nodup) (f i : Str) :
    (∃ r ∈ extractRecords gs, r.function = f ∧ r.callId = i) ↔
      (hasPhase gs (f, i) .start = true ∧ hasPhase gs (f, i) .end' = true) := by
  constructor
  · rintro ⟨r, hr, hf, hi⟩
    obtain ⟨k, s, e, hm, hrec⟩ := (mem_extractRecords gs r).mp hr
    have hk : k = (f, i) := by
      subst hrec
      exact Prod.ext hf hi
    rw [hk] at hm
    rw [hasPhase, hasPhase, findSlot_of_mem gs (f, i) (some s, some e) hn hm]
    exact ⟨rfl, rfl⟩
  · rintro ⟨hs, he⟩
    rw [hasPhase] at hs he
    cases hf : findSlot gs (f, i) with
    | none => rw [hf] at hs; cases hs
    | some sl =>
      rw [hf] at hs he
      obtain ⟨s1, s2⟩ := sl
      cases s1 with
      | none => cases hs
      | some s =>
        cases s2 with
        | none => cases he
        | some e =>
          refine ⟨mkRecord (f, i) s e, ?_, rfl, rfl⟩
          exact (mem_extractRecords gs _).mpr ⟨(f, i), s, e, findSlot_mem _ _ _ hf, rfl⟩

theorem mem_insertRec (r a : CallRecord) (l : List CallRecord) :
    a ∈ insertRec r l ↔ a = r ∨ a ∈ l := by
  induction l with
  | nil => simp [insertRec]
  | cons x xs ih =>
    by_cases h : r.startTime ≤ x.startTime
    · simp [insertRec, h]
    · simp only [insertRec, if_neg h, List.mem_cons, ih]
      tauto

theorem mem_sortRecs (a : CallRecord) (l : List CallRecord) :
    a ∈ sortRecs l ↔ a ∈ l := by
  induction l with
  | nil => simp [sortRecs]
  | cons x xs ih =>
    simp only [sortRecs, mem_insertRec, ih, List.mem_cons]

theorem sorted_insertRec (r : CallRecord) (l : List CallRecord)
    (h : l.Pairwise (fun a b => a.startTime ≤ b.startTime)) :
    (insertRec r l).Pairwise (fun a b => a.startTime ≤ b.startTime) := by
  induction l with
  | nil => simp [insertRec]
  | cons x xs ih =>
    rcases List.pairwise_cons.mp h with ⟨hx, hxs⟩
    by_cases hle : r.startTime ≤ x.startTime
    · rw [insertRec, if_pos hle]
      refine List.pairwise_cons.mpr ⟨?_, h⟩
      intro b hb
      rcases List.mem_cons.mp hb with rfl | hb
      · exact hle
      · exact le_trans hle (hx b hb)
    · rw [insertRec, if_neg hle]
      refine List.pairwise_cons.mpr ⟨?_, ih hxs⟩
      intro b hb
      rcases (mem_insertRec r b xs).mp hb with rfl | hb
      · exact le_of_not_le hle
      · exact hx b hb

theorem sorted_sortRecs (l : List CallRecord) :
    (sortRecs l).Pairwise (fun a b => a.startTime ≤ b.startTime) := by
  induction l with
  | nil => simp [sortRecs]
  | cons x xs ih => exact sorted_insertRec x (sortRecs xs) ih

theorem filterWindow_mem :
    ∀ (lines filt : List LogLine) (st et : ℤ),
      filterWindow st et lines = .ok filt →
        ∀ l, (l ∈ filt ↔ l ∈ lines ∧ inWindow st et l) := by
  intro lines
  induction lines with
  | nil =>
    intro filt st et h l
    simp only [filterWindow, Except.ok.injEq] at h
    subst h
    simp
  | cons x rest ih =>
    intro filt st et h l
    cases ht : parseTimestamp x.timestamp with
    | none =>
      simp only [filterWindow, ht] at h
      exact absurd h (by simp)
    | some t =>
      simp only [filterWindow, ht] at h
      cases htl : filterWindow st et rest with
      | error e =>
        rw [htl, except_error_bind] at h
        exact absurd h (by simp)
      | ok tail =>
        rw [htl, except_ok_bind] at h
        by_cases hw : st ≤ t ∧ t ≤ et
        · rw [if_pos (by simp [hw.1, hw.2])] at h
          injection h with h
          subst h
          simp only [List.mem_cons, ih tail st et htl l]
          constructor
          · rintro (rfl | ⟨hmem, hwin⟩)
            · exact ⟨Or.inl rfl, t, ht, hw.1, hw.2⟩
            · exact ⟨Or.inr hmem, hwin⟩
          · rintro ⟨rfl | hmem, hwin⟩
            · exact Or.inl rfl
            · exact Or.inr ⟨hmem, hwin⟩
        · rw [if_neg (by
            intro hc
            simp only [Bool.and_eq_true, decide_eq_true_eq] at hc
            exact hw hc)] at h
          injection h with h
          subst h
          rw [ih tail st et htl l]
          constructor
          · rintro ⟨hmem, hwin⟩
            exact ⟨List.mem_cons_of_mem _ hmem, hwin⟩
          · rintro ⟨hmem, hwin⟩
            rcases List.mem_cons.mp hmem with rfl | hmem
            · obtain ⟨t', ht', h1, h2⟩ := hwin
              rw [ht] at ht'
              injection ht' with ht'
              subst ht'
              exact absurd ⟨h1, h2⟩ hw
            · exact ⟨hmem, hwin⟩

/-- Decomposition of a successful `parse_log_lines` run into its pipeline
stages. -/
theorem parse_log_lines_ok_parts (lines : List LogLine) (st et : ℤ)
    (rows : List CallRecord) (filt : List LogLine)
    (h : parse_log_lines lines st et = .ok (rows, filt)) :
    ∃ groups, filterWindow st et lines = .ok filt ∧ buildGroups [] filt = .ok groups ∧
      (extractRecords groups).isEmpty = false ∧ rows = sortRecs (extractRecords groups) := by
  simp only [parse_log_lines] at h
  cases hf : filterWindow st et lines with
  | error e =>
    rw [hf, except_error_bind] at h
    exact absurd h (by simp)
  | ok filtered =>
    rw [hf, except_ok_bind] at h
    cases hg : buildGroups [] filtered with
    | error e =>
      rw [hg, except_error_bind] at h
      exact absurd h (by simp)
    | ok groups =>
      rw [hg, except_ok_bind] at h
      by_cases hemp : (extractRecords groups).isEmpty
      · rw [if_pos hemp] at h
        exact absurd h (by simp)
      · rw [if_neg hemp] at h
        injection h with h
        injection h with h1 h2
        subst h2
        exact ⟨groups, rfl, hg, Bool.not_eq_true _ ▸ hemp, h1.symm⟩

/-- Claim C2: for every input to `parse_log_lines`, a `(function name,
correlation id)` group contributes a `CallRecord` to the output if and only
if the group contains both a start-phase and an end-phase entry inside the
`[start_time, end_time]` window — a group with only a start or only an end
is silently dropped, not reported as an error — and the output rows are
sorted by start time ascending. -/
theorem parse_log_lines_pairing_and_order (lines : List LogLine) (st et : ℤ)
    (rows : List CallRecord) (filt : List LogLine)
    (h : parse_log_lines lines st et = .ok (rows, filt)) :
    (∀ f i, (∃ r ∈ rows, r.function = f ∧ r.callId = i) ↔
        ((∃ l ∈ lines, inWindow st et l ∧ matchesPhase l f i .start) ∧
         (∃ l ∈ lines, inWindow st et l ∧ matchesPhase l f i .end'))) ∧
    rows.Pairwise (fun a b => a.startTime ≤ b.startTime) := by
  obtain ⟨groups, hf, hg, -, hrows⟩ := parse_log_lines_ok_parts lines st et rows filt h
  constructor
  · intro f i
    have hnodup : (groups.map Prod.fst).Nodup :=
      buildGroups_nodup filt [] groups hg (by simp)
    have hkey := exists_record_key_iff groups hnodup f i
    have hphase := fun ph => buildGroups_hasPhase filt [] groups hg (f, i) ph
    have hmem := filterWindow_mem lines filt st et hf
    constructor
    · rintro ⟨r, hr, hfn, hid⟩
      rw [hrows, mem_sortRecs] at hr
      obtain ⟨hs, he⟩ := hkey.mp ⟨r, hr, hfn, hid⟩
      obtain ⟨l1, hl1, hm1⟩ := ((hphase .start).mp hs).resolve_left (by simp [hasPhase, findSlot])
      obtain ⟨l2, hl2, hm2⟩ := ((hphase .end').mp he).resolve_left (by simp [hasPhase, findSlot])
      obtain ⟨hl1', hw1⟩ := (hmem l1).mp hl1
      obtain ⟨hl2', hw2⟩ := (hmem l2).mp hl2
      exact ⟨⟨l1, hl1', hw1, hm1⟩, ⟨l2, hl2', hw2, hm2⟩⟩
    · rintro ⟨⟨l1, hl1, hw1, hm1⟩, ⟨l2, hl2, hw2, hm2⟩⟩
      have hs : hasPhase groups (f, i) .start = true :=
        (hphase .start).mpr (Or.inr ⟨l1, (hmem l1).mpr ⟨hl1, hw1⟩, hm1⟩)
      have he : hasPhase groups (f, i) .end' = true :=
        (hphase .end').mpr (Or.inr ⟨l2, (hmem l2).mpr ⟨hl2, hw2⟩, hm2⟩)
      obtain ⟨r, hr, hfn, hid⟩ := hkey.mpr ⟨hs, he⟩
      exact ⟨r, hrows ▸ (mem_sortRecs r _).mpr hr, hfn, hid⟩
  · rw [hrows]
    exact sorted_sortRecs _

deriving instance DecidableEq for Except

/-- A concrete start-phase log line (shaped like the repository's own test
fixture). -/
def sampleStartLine : LogLine :=
  ⟨"2024-01-01 00:00:00,000000".data,
   "func: start: wall=1.0 perf=1.0 id=abc cpu=1.0% rss=1000 vms=2000 mem%=5.0 threads=2 fds=10".data⟩

/-- The matching end-phase log line. -/
def sampleEndLine : LogLine :=
  ⟨"2024-01-01 00:00:01,000000".data,
   "func: end: wall=2.0 perf=2.5 id=abc duration=1.5sec cpu=2.0% rss=1100 vms=2100 mem%=6.0 threads=2 fds=10".data⟩

/-- The single reconstructed record for the sample pair. -/
def sampleRecord : CallRecord :=
  { function := "func".data
    callId := "abc".data
    startTime := 63839664000000000
    endTime := 63839664001000000
    wallDuration := 1
    perfDuration := Rat.divInt 3 2
    durationFromLog := some (Rat.divInt 3 2)
    startCpu := 1
    endCpu := 2
    startRss := 1000
    endRss := 1100
    startMem := 5
    endMem := 6
    startThreads := 2
    endThreads := 2
    startFds := 10
    endFds := 10 }

theorem parse_log_lines_pairing_and_order_witness :
    parse_log_lines [sampleStartLine, sampleEndLine] 63839663000000000 63839665000000000
      = .ok ([sampleRecord], [sampleStartLine, sampleEndLine]) ∧
    [sampleRecord].Pairwise (fun a b => a.startTime ≤ b.startTime) :=
  ⟨by decide,
   (parse_log_lines_pairing_and_order [sampleStartLine, sampleEndLine]
      63839663000000000 63839665000000000 [sampleRecord]
      [sampleStartLine, sampleEndLine] (by decide)).2⟩

/-! ## Claim C9: the empty-result path raises `KeyError` -/

/-- All the `float(...)` conversions applied to a match's groups succeed. -/
def convertsOk (g : MatchGroups) : Bool :=
  (parseFloat g.wall).isSome && (parseFloat g.perf).isSome &&
    (parseFloat g.cpu).isSome && (parseFloat g.mem).isSome &&
    (match g.duration with
     | none => true
     | some d => (parseFloat d).isSome)

theorem toParsed_ok_of_convertsOk (g : MatchGroups) (t : ℤ)
    (h : convertsOk g = true) : ∃ p, toParsed g t = .ok p := by
  simp only [convertsOk, Bool.and_eq_true, Option.isSome_iff_exists] at h
  obtain ⟨⟨⟨⟨⟨w, hw⟩, ⟨pf, hpf⟩⟩, ⟨c, hc⟩⟩, ⟨m, hm⟩⟩, hd⟩ := h
  cases hres : toParsed g t with
  | ok p => exact ⟨p, rfl⟩
  | error e =>
    exfalso
    cases hdur : g.duration with
    | none =>
      simp only [toParsed, floatOf, hw, hpf, hc, hm, hdur, except_ok_bind] at hres
      exact absurd hres (by simp)
    | some d =>
      rw [hdur] at hd
      obtain ⟨q, hq⟩ := Option.isSome_iff_exists.mp hd
      simp only [toParsed, floatOf, hw, hpf, hc, hm, hdur, hq, except_ok_bind] at hres
      exact absurd hres (by simp)

theorem filterWindow_ok_of_parses :
    ∀ (lines : List LogLine) (st et : ℤ),
      (∀ l ∈ lines, (parseTimestamp l.timestamp).isSome) →
        ∃ filt, filterWindow st et lines = .ok filt := by
  intro lines
  induction lines with
  | nil => exact fun st et _ => ⟨[], rfl⟩
  | cons x rest ih =>
    intro st et h
    obtain ⟨t, ht⟩ := Option.isSome_iff_exists.mp (h x (List.mem_cons_self _ _))
    obtain ⟨tail, htail⟩ := ih st et (fun l hl => h l (List.mem_cons_of_mem _ hl))
    by_cases hw : st ≤ t && t ≤ et
    · exact ⟨x :: tail, by simp only [filterWindow, ht, htail, except_ok_bind, if_pos hw]⟩
    · exact ⟨tail, by simp only [filterWindow, ht, htail, except_ok_bind, if_neg hw]⟩

theorem buildGroups_ok_of_converts :
    ∀ (ls : List LogLine) (acc : List ((Str × Str) × Slots)),
      (∀ l ∈ ls, (parseTimestamp l.timestamp).isSome) →
      (∀ l ∈ ls, ∀ g, matchSearch l.message = some g → convertsOk g = true) →
        ∃ out, buildGroups acc ls = .ok out := by
  intro ls
  induction ls with
  | nil => exact fun acc _ _ => ⟨acc, rfl⟩
  | cons l rest ih =>
    intro acc h1 h2
    cases hm : matchSearch l.message with
    | none =>
      obtain ⟨out, hout⟩ := ih acc (fun l' hl => h1 l' (List.mem_cons_of_mem _ hl))
        (fun l' hl => h2 l' (List.mem_cons_of_mem _ hl))
      exact ⟨out, by simp only [buildGroups, hm, hout]⟩
    | some g =>
      obtain ⟨t, ht⟩ := Option.isSome_iff_exists.mp (h1 l (List.mem_cons_self _ _))
      obtain ⟨p, hp⟩ := toParsed_ok_of_convertsOk g t
        (h2 l (List.mem_cons_self _ _) g hm)
      obtain ⟨out, hout⟩ := ih (updateGroups acc (g.func, g.id) g.phase p)
        (fun l' hl => h1 l' (List.mem_cons_of_mem _ hl))
        (fun l' hl => h2 l' (List.mem_cons_of_mem _ hl))
      exact ⟨out, by simp only [buildGroups, hm, ht, hp, except_ok_bind, hout]⟩

/-- Claim C9: whenever no `(function name, correlation id)` group inside
the window contains both a start and an end entry — in particular whenever
the filtered window is empty — `parse_log_lines` raises `KeyError`
(sorting an empty, column-less table by `"Start Time"`) instead of
returning an empty table.  The hypotheses on timestamps and numeric
conversions keep the run from failing earlier with `ValueError`. -/
theorem parse_log_lines_keyError_on_no_pairs (lines : List LogLine) (st et : ℤ)
    (h1 : ∀ l ∈ lines, (parseTimestamp l.timestamp).isSome)
    (h2 : ∀ l ∈ lines, ∀ g, matchSearch l.message = some g → convertsOk g = true)
    (h3 : ∀ f i, ¬((∃ l ∈ lines, inWindow st et l ∧ matchesPhase l f i .start) ∧
                   (∃ l ∈ lines, inWindow st et l ∧ matchesPhase l f i .end'))) :
    parse_log_lines lines st et = .error .keyError := by
  obtain ⟨filt, hf⟩ := filterWindow_ok_of_parses lines st et h1
  have hmem := filterWindow_mem lines filt st et hf
  have hsub : ∀ l ∈ filt, l ∈ lines := fun l hl => ((hmem l).mp hl).1
  obtain ⟨groups, hg⟩ := buildGroups_ok_of_converts filt []
    (fun l hl => h1 l (hsub l hl)) (fun l hl => h2 l (hsub l hl))
  have hnodup : (groups.map Prod.fst).Nodup :=
    buildGroups_nodup filt [] groups hg (by simp)
  have hempty : extractRecords groups = [] := by
    cases hrec : extractRecords groups with
    | nil => rfl
    | cons r rs =>
      exfalso
      have hr : r ∈ extractRecords groups := hrec ▸ List.mem_cons_self _ _
      obtain ⟨hs, he⟩ := (exists_record_key_iff groups hnodup r.function r.callId).mp
        ⟨r, hr, rfl, rfl⟩
      have hphase := fun ph => buildGroups_hasPhase filt [] groups hg
        (r.function, r.callId) ph
      obtain ⟨l1, hl1, hm1⟩ := ((hphase .start).mp hs).resolve_left
        (by simp [hasPhase, findSlot])
      obtain ⟨l2, hl2, hm2⟩ := ((hphase .end').mp he).resolve_left
        (by simp [hasPhase, findSlot])
      exact h3 r.function r.callId
        ⟨⟨l1, hsub l1 hl1, ((hmem l1).mp hl1).2, hm1⟩,
         ⟨l2, hsub l2 hl2, ((hmem l2).mp hl2).2, hm2⟩⟩
  simp only [parse_log_lines, hf, except_ok_bind, hg, hempty, List.isEmpty_nil, if_pos]

theorem parse_log_lines_keyError_on_no_pairs_witness :
    parse_log_lines [] 0 0 = .error .keyError :=
  parse_log_lines_keyError_on_no_pairs [] 0 0
    (fun l hl => absurd hl (List.not_mem_nil l))
    (fun l hl => absurd hl (List.not_mem_nil l))
    (fun f i h => by
      obtain ⟨⟨l, hl, -⟩, -⟩ := h
      exact absurd hl (List.not_mem_nil l))

/-! ## Claim C5: tolerance of malformed lines

`load_all_log_lines` runs `json.loads` on each raw line inside a `try`
whose `except` clause catches only `json.JSONDecodeError`: undecodable
lines are skipped, and a decoded record is kept iff
`"timestamp" in record and "message" in record`.  That `in` test is a key
lookup on a dict, a substring test on a string and a membership test on a
list, but it raises an uncaught `TypeError` when the line decodes to a
number, a boolean or `null` — aborting the whole load.  `parse_log_lines`
silently ignores messages that fail the grammar match, while a decoded
line whose timestamp string does not parse aborts it with `ValueError`
inside the window filter. -/

/-- One value returned by `json.loads` on a line of valid JSON: a
non-iterable scalar (number, boolean or `null`), a string, an array (only
its string elements matter to the `in` membership test, since
`"timestamp" == x` is `False` for every non-string `x`), or an object
with optional `timestamp`/`message` keys. -/
inductive Decoded where
  | scalar
  | str (s : Str)
  | arr (strElems : List Str)
  | obj (ts? : Option Str) (msg? : Option Str)
  deriving DecidableEq, Repr

/-- One raw text line of a log file: either not JSON at all
(`json.JSONDecodeError`, caught and skipped) or some decoded value. -/
inductive RawLine where
  | badJson
  | decoded (v : Decoded)
  deriving DecidableEq, Repr

/-- The filter `"timestamp" in record and "message" in record`: key lookup
on a dict, substring test on a string, membership test on a list, and an
uncaught `TypeError` on a number, boolean or `null` (`in` needs an
iterable; `and` short-circuits, so the first `in` already raises). -/
def keepCheck : Decoded → Except PyError Bool
  | .scalar => .error .typeError
  | .str s => .ok (decide (("timestamp".data : Str) <:+: s)
      && decide (("message".data : Str) <:+: s))
  | .arr es => .ok (decide ("timestamp".data ∈ es)
      && decide ("message".data ∈ es))
  | .obj ts? msg? => .ok (ts?.isSome && msg?.isSome)

/-- `load_all_log_lines`: decode every raw line, skip undecodable ones,
keep the records passing the key check, and propagate the `TypeError`
that the key check raises on a non-iterable record. -/
def load_all_log_lines : List RawLine → Except PyError (List Decoded)
  | [] => .ok []
  | .badJson :: rest => load_all_log_lines rest
  | .decoded v :: rest => do
    let keep ← keepCheck v
    let tail ← load_all_log_lines rest
    if keep then .ok (v :: tail) else .ok tail

/-- The lines the loader drops silently: undecodable ones, and decoded
records whose key check answers `False` without raising. -/
def skipsLine : RawLine → Bool
  | .badJson => true
  | .decoded v =>
    match keepCheck v with
    | .ok false => true
    | _ => false

theorem except_map_ok {α β : Type} (f : α → β) (a : α) :
    (Except.ok a : Except PyError α).map f = .ok (f a) := rfl

theorem except_map_error {α β : Type} (f : α → β) (e : PyError) :
    (Except.error e : Except PyError α).map f = .error e := rfl

theorem filterWindow_append (st et : ℤ) :
    ∀ xs ys, filterWindow st et (xs ++ ys) =
      match filterWindow st et xs with
      | .error e => .error e
      | .ok a =>
        match filterWindow st et ys with
        | .error e => .error e
        | .ok b => .ok (a ++ b)
  | [], ys => by
    cases hy : filterWindow st et ys with
    | error e => simp [filterWindow, hy]
    | ok b => simp [filterWindow, hy]
  | x :: xs, ys => by
    cases ht : parseTimestamp x.timestamp with
    | none => simp only [List.cons_append, filterWindow, ht]
    | some t =>
      simp only [List.cons_append, filterWindow, ht]
      rw [show xs.append ys = xs ++ ys from rfl, filterWindow_append st et xs ys]
      cases hx : filterWindow st et xs with
      | error e => rfl
      | ok a =>
        cases hy : filterWindow st et ys with
        | error e =>
          by_cases hw : st ≤ t && t ≤ et
          · simp only [except_ok_bind, if_pos hw, except_error_bind]
          · simp only [except_ok_bind, if_neg hw, except_error_bind]
        | ok b =>
          by_cases hw : st ≤ t && t ≤ et
          · simp only [except_ok_bind, if_pos hw, List.cons_append]
          · simp only [except_ok_bind, if_neg hw]

theorem buildGroups_append :
    ∀ (xs ys : List LogLine) (acc : List ((Str × Str) × Slots)),
      buildGroups acc (xs ++ ys) =
        match buildGroups acc xs with
        | .error e => .error e
        | .ok g => buildGroups g ys
  | [], ys, acc => rfl
  | l :: xs, ys, acc => by
    cases hm : matchSearch l.message with
    | none =>
      simp only [List.cons_append, buildGroups, hm]
      exact buildGroups_append xs ys acc
    | some g =>
      cases ht : parseTimestamp l.timestamp with
      | none => simp only [List.cons_append, buildGroups, hm, ht]
      | some t =>
        cases hp : toParsed g t with
        | error e =>
          simp only [List.cons_append, buildGroups, hm, ht, hp, except_error_bind]
        | ok p =>
          simp only [List.cons_append, buildGroups, hm, ht, hp, except_ok_bind]
          exact buildGroups_append xs ys _

/-- A decoded log line whose timestamp string is not in the expected
format. -/
def badTsLine : LogLine := ⟨"not a timestamp".data, "hello".data⟩

/-- A decoded log line with a valid timestamp whose message is unrelated
chatter (no grammar match). -/
def chatterLine : LogLine :=
  ⟨"2024-01-01 00:00:00,500000".data, "unrelated log chatter".data⟩

/-- Counterexample to claim C5 as stated: a raw line of valid JSON that
is a bare number (`5`) aborts `load_all_log_lines` with `TypeError`
instead of being skipped; and a line that decodes as a structured record
but whose timestamp fails to parse is not skipped either — it aborts
`parse_log_lines` with `ValueError`, even though the remaining lines on
their own parse successfully (`load_all_log_lines` happily passes such a
line through). -/
theorem malformed_timestamp_aborts_parse :
    load_all_log_lines [RawLine.decoded .scalar] = .error .typeError ∧
    load_all_log_lines
        [RawLine.decoded
          (.obj (some "not a timestamp".data) (some "hello".data))]
      = .ok [.obj (some "not a timestamp".data) (some "hello".data)] ∧
    parse_log_lines [badTsLine, sampleStartLine, sampleEndLine]
        63839663000000000 63839665000000000 = .error .valueError ∧
    parse_log_lines [sampleStartLine, sampleEndLine]
        63839663000000000 63839665000000000
      = .ok ([sampleRecord], [sampleStartLine, sampleEndLine]) := by
  refine ⟨by decide, by decide, by decide, by decide⟩

/-- Claim C5 (amended): a raw line that fails to decode as JSON, or that
decodes to a record failing the `timestamp`/`message` key check without
raising, is skipped silently by `load_all_log_lines`; a decoded line
whose timestamp parses but whose message fails the grammar match is
skipped silently by `parse_log_lines`, whose record output is unchanged
by the line's presence; but a line of valid JSON that is a number, a
boolean or `null` aborts `load_all_log_lines` with `TypeError`, and a
decoded line whose timestamp fails to parse aborts `parse_log_lines`
with `ValueError`, rather than being skipped. -/
theorem malformed_lines_skipped :
    (∀ (xs ys : List RawLine) (r : RawLine), skipsLine r = true →
        load_all_log_lines (xs ++ r :: ys) = load_all_log_lines (xs ++ ys)) ∧
    (∀ (xs ys : List RawLine),
        load_all_log_lines (xs ++ RawLine.decoded .scalar :: ys)
          = .error .typeError) ∧
    (∀ (st et : ℤ) (xs ys : List LogLine) (L : LogLine),
        (parseTimestamp L.timestamp).isSome → matchSearch L.message = none →
        (parse_log_lines (xs ++ L :: ys) st et).map Prod.fst
          = (parse_log_lines (xs ++ ys) st et).map Prod.fst) := by
  refine ⟨?_, ?_, ?_⟩
  · intro xs ys r hr
    induction xs with
    | nil =>
      cases r with
      | badJson => rfl
      | decoded v =>
        cases hk : keepCheck v with
        | error e => simp [skipsLine, hk] at hr
        | ok b =>
          cases b with
          | true => simp [skipsLine, hk] at hr
          | false =>
            simp only [List.nil_append, load_all_log_lines, hk, except_ok_bind]
            cases hl : load_all_log_lines ys with
            | error e => rfl
            | ok tail => rfl
    | cons r0 xs ih =>
      cases r0 with
      | badJson =>
        simp only [List.cons_append, load_all_log_lines]
        exact ih
      | decoded v =>
        simp only [List.cons_append, load_all_log_lines, List.append_eq]
        rw [ih]
  · intro xs ys
    induction xs with
    | nil => rfl
    | cons r0 xs ih =>
      cases r0 with
      | badJson =>
        simp only [List.cons_append, load_all_log_lines]
        exact ih
      | decoded v =>
        simp only [List.cons_append, load_all_log_lines, List.append_eq]
        rw [ih]
        cases v <;> rfl
  · intro st et xs ys L hts hm
    obtain ⟨t, ht⟩ := Option.isSome_iff_exists.mp hts
    simp only [parse_log_lines]
    rw [filterWindow_append st et xs (L :: ys), filterWindow_append st et xs ys]
    cases hx : filterWindow st et xs with
    | error e => rfl
    | ok a =>
      simp only [filterWindow, ht]
      cases hy : filterWindow st et ys with
      | error e =>
        by_cases hw : st ≤ t && t ≤ et
        · simp only [except_error_bind, if_pos hw]
        · simp only [except_error_bind, if_neg hw]
      | ok b =>
        by_cases hw : st ≤ t && t ≤ et
        · simp only [except_ok_bind, if_pos hw]
          rw [buildGroups_append a (L :: b) [], buildGroups_append a b []]
          cases hg : buildGroups [] a with
          | error e => rfl
          | ok g =>
            dsimp only
            rw [show buildGroups g (L :: b) = buildGroups g b by
              simp only [buildGroups, hm]]
            cases hgb : buildGroups g b with
            | error e => rfl
            | ok groups =>
              by_cases hemp : (extractRecords groups).isEmpty
              · simp only [except_ok_bind, if_pos hemp, except_map_error]
              · simp only [except_ok_bind, if_neg hemp, except_map_ok]
        · simp only [except_ok_bind, if_neg hw]

theorem malformed_lines_skipped_witness :
    load_all_log_lines ([] ++ RawLine.badJson :: []) = load_all_log_lines ([] ++ []) ∧
    load_all_log_lines
        ([RawLine.badJson] ++ RawLine.decoded .scalar :: []) = .error .typeError ∧
    (parse_log_lines ([sampleStartLine] ++ chatterLine :: [sampleEndLine])
        63839663000000000 63839665000000000).map Prod.fst
      = (parse_log_lines ([sampleStartLine] ++ [sampleEndLine])
          63839663000000000 63839665000000000).map Prod.fst :=
  ⟨malformed_lines_skipped.1 [] [] .badJson (by decide),
   malformed_lines_skipped.2.1 [RawLine.badJson] [],
   malformed_lines_skipped.2.2 63839663000000000 63839665000000000
     [sampleStartLine] [sampleEndLine] chatterLine (by decide) (by decide)⟩

/-! ## Claim C6: timestamp separator

Suffix-propagation lemmas for the parsers, used to show that any accepted
timestamp contains a comma (so the dot form is always rejected) and that
any matched message contains an equals sign. -/

theorem getDigit_suffix {l r : Str} {n : ℕ} (h : getDigit l = some (n, r)) :
    r <:+ l := by
  cases l with
  | nil => cases h
  | cons c cs =>
    by_cases hd : c.isDigit
    · simp only [getDigit, if_pos hd, Option.some.injEq, Prod.mk.injEq] at h
      exact h.2 ▸ List.suffix_cons c cs
    · simp only [getDigit, if_neg hd] at h
      exact Option.noConfusion h

theorem get4Digits_suffix {l r : Str} {n : ℕ} (h : get4Digits l = some (n, r)) :
    r <:+ l := by
  simp only [get4Digits, Option.bind_eq_bind, Option.bind_eq_some] at h
  obtain ⟨⟨a, l1⟩, h1, ⟨b, l2⟩, h2, ⟨c, l3⟩, h3, ⟨d, l4⟩, h4, hp⟩ := h
  simp only [Option.pure_def, Option.some.injEq, Prod.mk.injEq] at hp
  exact hp.2 ▸ (((getDigit_suffix h4).trans (getDigit_suffix h3)).trans
    (getDigit_suffix h2)).trans (getDigit_suffix h1)

theorem get2or1_suffix {ok2 ok1 : ℕ → Bool} {l r : Str} {n : ℕ}
    (h : get2or1 ok2 ok1 l = some (n, r)) : r <:+ l := by
  match l with
  | [] => cases h
  | [c] =>
    simp only [get2or1] at h
    split at h
    · simp only [Option.some.injEq, Prod.mk.injEq] at h
      exact h.2 ▸ List.nil_suffix
    · cases h
  | c :: c' :: rest =>
    simp only [get2or1] at h
    split at h
    · simp only [Option.some.injEq, Prod.mk.injEq] at h
      exact h.2 ▸ (List.suffix_cons c' rest).trans (List.suffix_cons c _)
    · split at h
      · simp only [Option.some.injEq, Prod.mk.injEq] at h
        exact h.2 ▸ List.suffix_cons c _
      · cases h

theorem litChar_suffix {ch : Char} {l r : Str} (h : litChar ch l = some r) :
    r <:+ l := by
  cases l with
  | nil => cases h
  | cons x rest =>
    by_cases hx : x = ch
    · simp only [litChar, if_pos hx, Option.some.injEq] at h
      exact h ▸ List.suffix_cons x rest
    · simp only [litChar, if_neg hx] at h
      exact Option.noConfusion h

theorem litChar_mem {ch : Char} {l r : Str} (h : litChar ch l = some r) : ch ∈ l := by
  cases l with
  | nil => cases h
  | cons x rest =>
    by_cases hx : x = ch
    · exact hx ▸ List.mem_cons_self x rest
    · simp only [litChar, if_neg hx] at h
      exact Option.noConfusion h

/-- Every timestamp accepted by `strptime("%Y-%m-%d %H:%M:%S,%f")` contains
the comma separator. -/
theorem parseTimestamp_comma {l : Str} {t : ℤ} (h : parseTimestamp l = some t) :
    ',' ∈ l := by
  simp only [parseTimestamp, Option.bind_eq_bind, Option.bind_eq_some] at h
  obtain ⟨⟨y, l1⟩, h1, l2, h2, ⟨mo, l3⟩, h3, l4, h4, ⟨d, l5⟩, h5, l6, h6,
    ⟨hh, l7⟩, h7, l8, h8, ⟨mi, l9⟩, h9, l10, h10, ⟨s, l11⟩, h11, l12, h12, hrest⟩ := h
  have hsub : l11 <:+ l :=
    ((((((((((get2or1_suffix h11).trans (litChar_suffix h10)).trans
      (get2or1_suffix h9)).trans (litChar_suffix h8)).trans
      (get2or1_suffix h7)).trans (litChar_suffix h6)).trans
      (get2or1_suffix h5)).trans (litChar_suffix h4)).trans
      (get2or1_suffix h3)).trans (litChar_suffix h2)).trans (get4Digits_suffix h1)
  exact hsub.subset (litChar_mem h12)

/-- A start-phase line timestamped in the dot form. -/
def dotStartLine : LogLine :=
  ⟨"2024-01-02 03:04:05.123456".data,
   "func: start: wall=1.0 perf=1.0 id=abc cpu=1.0% rss=1000 vms=2000 mem%=5.0 threads=2 fds=10".data⟩

/-- Counterexample to claim C6 as stated: the analysis-side parsers accept
the comma form but reject the dot form outright — a dot-form record makes
both `detect_recent_dense_block` and `parse_log_lines` raise `ValueError`
instead of producing the same parsed instant. -/
theorem dot_timestamp_rejected :
    parseTimestamp "2024-01-02 03:04:05,123456".data = some 63839761445123456 ∧
    parseTimestamp "2024-01-02 03:04:05.123456".data = none ∧
    detect_recent_dense_block [dotStartLine] 1 30 = .error .valueError ∧
    parse_log_lines [dotStartLine] 0 63900000000000000 = .error .valueError ∧
    detect_recent_dense_block [⟨"2024-01-02 03:04:05,123456".data, "m".data⟩] 1 30
      = .ok (some 63839761445123456, some 63839761445123456) := by
  refine ⟨by decide, by decide, by decide, by decide, by decide⟩

theorem mapM_loop_parseTimestamp_none :
    ∀ (lines : List LogLine) (acc : List ℤ),
      (∃ L ∈ lines, parseTimestamp L.timestamp = none) →
      List.mapM.loop (fun l => parseTimestamp l.timestamp) lines acc = none := by
  intro lines
  induction lines with
  | nil =>
    rintro acc ⟨L, hL, -⟩
    cases hL
  | cons x rest ih =>
    rintro acc ⟨L, hL, hbadL⟩
    rcases List.mem_cons.mp hL with rfl | hmem'
    · simp [List.mapM.loop, hbadL]
    · cases ht : parseTimestamp x.timestamp with
      | none => simp [List.mapM.loop, ht]
      | some t =>
        simp only [List.mapM.loop, ht, Option.bind_eq_bind, Option.some_bind]
        exact ih _ ⟨L, hmem', hbadL⟩

theorem mapM_parseTimestamp_none (lines : List LogLine) (L : LogLine)
    (hmem : L ∈ lines) (hbad : parseTimestamp L.timestamp = none) :
    lines.mapM (fun l => parseTimestamp l.timestamp) = none := by
  simpa [List.mapM] using mapM_loop_parseTimestamp_none lines [] ⟨L, hmem, hbad⟩

theorem filterWindow_error_of_bad (lines : List LogLine) (L : LogLine) (st et : ℤ)
    (hmem : L ∈ lines) (hbad : parseTimestamp L.timestamp = none) :
    filterWindow st et lines = .error .valueError := by
  induction lines with
  | nil => cases hmem
  | cons x rest ih =>
    rcases List.mem_cons.mp hmem with rfl | hmem'
    · simp [filterWindow, hbad]
    · cases ht : parseTimestamp x.timestamp with
      | none => simp [filterWindow, ht]
      | some t => simp [filterWindow, ht, ih hmem', except_error_bind]

/-- Claim C6 (amended): the analysis-side parsers accept a structured log
record's timestamp only in the comma form `YYYY-MM-DD HH:MM:SS,ffffff`: a
timestamp string without a comma (in particular the dot form) never
parses, and a line carrying such a timestamp makes both
`detect_recent_dense_block` and `parse_log_lines` raise `ValueError`. -/
theorem timestamp_comma_only :
    (∀ s : Str, ',' ∉ s → parseTimestamp s = none) ∧
    (∀ (lines : List LogLine) (L : LogLine) (m : ℕ) (g : ℚ) (st et : ℤ),
        L ∈ lines → parseTimestamp L.timestamp = none →
        detect_recent_dense_block lines m g = .error .valueError ∧
        parse_log_lines lines st et = .error .valueError) := by
  constructor
  · intro s hs
    cases h : parseTimestamp s with
    | none => rfl
    | some t => exact absurd (parseTimestamp_comma h) hs
  · intro lines L m g st et hmem hbad
    constructor
    · rw [detect_recent_dense_block, mapM_parseTimestamp_none lines L hmem hbad]
    · rw [parse_log_lines]
      rw [filterWindow_error_of_bad lines L st et hmem hbad]
      rfl

theorem timestamp_comma_only_witness :
    parseTimestamp "2024-01-02 03:04:05.123456".data = none ∧
    detect_recent_dense_block [dotStartLine] 25 30 = .error .valueError ∧
    parse_log_lines [dotStartLine] 0 0 = .error .valueError :=
  ⟨timestamp_comma_only.1 "2024-01-02 03:04:05.123456".data (by decide),
   (timestamp_comma_only.2 [dotStartLine] dotStartLine 25 30 0 0
      (List.mem_cons_self _ _) (by decide)).1,
   (timestamp_comma_only.2 [dotStartLine] dotStartLine 25 30 0 0
      (List.mem_cons_self _ _) (by decide)).2⟩

/-! ## Argument serialization and sanitization (`src/monitoring.py`)

`sanitizer`, `Timer.__call__`'s inner `safe_serialize` (with its early
return for pandas/geopandas DataFrames) and `ErrorCatcher._safe_serialize`
(which has no DataFrame branch). -/

/-- `''.join('*' if c.isdigit() else c for c in arg_str)`. -/
def sanitizer (s : Str) : Str :=
  s.map (fun c => if c.isDigit then '*' else c)

/-- A Python value as seen by the serializers: an object whose `str()` is
known, a pandas/geopandas DataFrame with a row count, or an object whose
`str()` raises. -/
inductive PyVal where
  | plain (s : Str)
  | frame (rows : ℕ) (strForm : Str)
  | strFails
  deriving DecidableEq, Repr

def PyVal.isFrame : PyVal → Bool
  | .frame _ _ => true
  | _ => false

/-- `str(obj)` with the `except` fallback `"<unserializable>"`. -/
def pyStr : PyVal → Str
  | .plain s => s
  | .frame _ sf => sf
  | .strFails => "<unserializable>".data

/-- Optional sanitization followed by optional truncation
(`s[:max_arg_length] + "..."` when `len(s) > max_arg_length`). -/
def sanTrunc (sanitize : Option (Str → Str)) (maxLen : Option ℕ) (s : Str) : Str :=
  let s := match sanitize with
    | some f => f s
    | none => s
  match maxLen with
  | some m => if m < s.length then s.take m ++ "...".data else s
  | none => s

/-- `safe_serialize` inside `Timer.__call__`: DataFrames short-circuit to a
row-count summary before the sanitizer and truncation are applied. -/
def safeSerialize (sanitize : Option (Str → Str)) (maxLen : Option ℕ) : PyVal → Str
  | .frame n _ => "<DataFrame with ".data ++ natStr n ++ " rows>".data
  | v => sanTrunc sanitize maxLen (pyStr v)

/-- `ErrorCatcher._safe_serialize`: identical but with no DataFrame
branch. -/
def ecSafeSerialize (sanitize : Option (Str → Str)) (maxLen : Option ℕ) (v : PyVal) : Str :=
  sanTrunc sanitize maxLen (pyStr v)

/-- Claim C10: a pandas/geopandas DataFrame argument is serialized as
`"<DataFrame with N rows>"` and returned before the configured sanitizer
and maximum-length truncation are applied, so the row-count digits appear
in the logged argument text even when a digit-masking sanitizer is
configured. -/
theorem dataframe_serialized_before_sanitizer (san : Option (Str → Str))
    (maxLen : Option ℕ) (n : ℕ) (sf : Str) :
    safeSerialize san maxLen (.frame n sf)
      = "<DataFrame with ".data ++ natStr n ++ " rows>".data ∧
    ∃ c ∈ safeSerialize san maxLen (.frame n sf), c.isDigit = true := by
  refine ⟨rfl, ?_⟩
  obtain ⟨c, hc⟩ := List.exists_mem_of_ne_nil (natStr n) (natStr_ne_nil n)
  exact ⟨c, by
    rw [show safeSerialize san maxLen (.frame n sf)
      = "<DataFrame with ".data ++ natStr n ++ " rows>".data from rfl]
    simp only [List.mem_append]
    exact Or.inl (Or.inr hc), natStr_digits n c hc⟩

/-- Counterexample to claim C8 as stated: a DataFrame argument whose string
form contains digits is logged with the digit-masking sanitizer configured,
yet the logged text contains a digit (the row count). -/
theorem sanitizer_bypassed_for_dataframe :
    (∃ c ∈ ("[3 rows x 1 columns]".data : Str), c.isDigit = true) ∧
    safeSerialize (some sanitizer) none (.frame 3 "[3 rows x 1 columns]".data)
      = "<DataFrame with 3 rows>".data ∧
    (∃ c ∈ safeSerialize (some sanitizer) none (.frame 3 "[3 rows x 1 columns]".data),
      c.isDigit = true) := by
  refine ⟨⟨'3', by decide, by decide⟩, by decide, ⟨'3', by decide, by decide⟩⟩

theorem mem_sanitizer_not_digit (s : Str) (c : Char) (hc : c ∈ sanitizer s) :
    c.isDigit = false := by
  obtain ⟨c', -, hc'⟩ := List.mem_map.mp hc
  by_cases hd : c'.isDigit
  · rw [if_pos hd] at hc'
    exact hc' ▸ rfl
  · rw [if_neg hd] at hc'
    exact hc' ▸ Bool.not_eq_true _ ▸ hd

/-- Claim C8 (amended): for every argument that is not a pandas/geopandas
DataFrame, if the digit-masking sanitizer is configured on the wrapper then
the serialized argument text contains no digit character (DataFrame
arguments bypass the sanitizer — see the counterexample and claim C10). -/
theorem sanitizer_masks_digits (maxLen : Option ℕ) (v : PyVal)
    (h : v.isFrame = false) :
    ∀ c ∈ safeSerialize (some sanitizer) maxLen v, c.isDigit = false := by
  have hbody : ∀ s : Str, ∀ c ∈ sanTrunc (some sanitizer) maxLen s, c.isDigit = false := by
    intro s c hc
    simp only [sanTrunc] at hc
    cases maxLen with
    | none => exact mem_sanitizer_not_digit s c hc
    | some m =>
      dsimp only at hc
      by_cases hlen : m < (sanitizer s).length
      · rw [if_pos hlen] at hc
        rcases List.mem_append.mp hc with hc | hc
        · exact mem_sanitizer_not_digit s c (List.take_subset m _ hc)
        · fin_cases hc <;> rfl
      · rw [if_neg hlen] at hc
        exact mem_sanitizer_not_digit s c hc
  cases v with
  | plain s => exact hbody (pyStr (.plain s))
  | strFails => exact hbody (pyStr .strFails)
  | frame n sf => cases h

theorem sanitizer_masks_digits_witness :
    (PyVal.plain "a1b2".data).isFrame = false ∧
    ∀ c ∈ safeSerialize (some sanitizer) (some 3) (.plain "a1b2".data),
      c.isDigit = false :=
  ⟨by decide, sanitizer_masks_digits (some 3) (.plain "a1b2".data) (by decide)⟩

/-! ## The call wrappers (`Timer.__call__`, `ErrorCatcher.__call__`)

The wrapper bodies are embedded as functions of the externally-sampled
quantities (clock readings, resource counters): the unit of work is an
argument `f` returning `Except PyExc β`, and the wrapper's own behavior —
which log records it emits and whether the failure is re-raised — is the
subject of the claims.  Keyword arguments are serialized exactly like
positional ones and are represented by the same `args` list. -/

/-- A Python exception: its type and message (`str(e)`). -/
structure PyExc where
  ty : Str
  msg : Str
  deriving DecidableEq, Repr

/-- One structured record as written by `JSONFormatter.format`:
`{timestamp, level, message, function, uuid}`. -/
structure EmitRec where
  timestamp : Str
  level : Str
  message : Str
  function : Str
  uuid : Str
  deriving DecidableEq, Repr

/-- The analysis module keeps only the `timestamp` and `message` fields. -/
def EmitRec.toLogLine (r : EmitRec) : LogLine := ⟨r.timestamp, r.message⟩

/-- Zero-padding on the left to `p` digits (the fractional part of a fixed
`%.pf` rendering). -/
def padZeros (p : ℕ) (l : Str) : Str := List.replicate (p - l.length) '0' ++ l

/-- `%.{prec}f` of a nonnegative exact value: round half up at `prec`
digits via integer arithmetic (`⌊q·10^p + 1/2⌋ = (2·num·10^p + den) / (2·den)`),
then print `intpart.fracpart`. -/
def fmtFixedNN (q : ℚ) (prec : ℕ) : Str :=
  let n : ℤ := (2 * q.num * 10 ^ prec + (q.den : ℤ)).ediv (2 * (q.den : ℤ))
  natStr (n.toNat / 10 ^ prec) ++ '.' :: padZeros prec (natStr (n.toNat % 10 ^ prec))

/-- `%.{prec}f` (Python `%`-formatting / f-string formatting of a float). -/
def fmtFixed (q : ℚ) (prec : ℕ) : Str :=
  if q < 0 then '-' :: fmtFixedNN (-q) prec else fmtFixedNN q prec

example : fmtFixed 1 4 = "1.0000".data := by decide
example : fmtFixed (Rat.divInt 3 2) 4 = "1.5000".data := by decide
example : fmtFixed (Rat.divInt 1 3) 2 = "0.33".data := by decide

/-- The console/log summary line of a successful `Timer`-wrapped call. -/
def timerSuccessMsg (fname : Str) (track : Bool) (elapsed cpu memch fm : ℚ) : Str :=
  "Function `".data ++ fname ++ "` executed in ".data ++ fmtFixed elapsed 4
    ++ " sec".data
    ++ (if track then
          ", CPU Time: ".data ++ fmtFixed cpu 4 ++ " sec, Memory Change: ".data
            ++ fmtFixed memch 4 ++ " MB, Final Memory: ".data ++ fmtFixed fm 4
            ++ " MB".data
        else [])

/-- The message of `logging.exception("Function `%s` raised an exception",
func.__name__, ...)` in `Timer.__call__`'s `except` clause
(`record.getMessage()` does not include the traceback). -/
def timerErrorMsg (fname : Str) : Str :=
  "Function `".data ++ fname ++ "` raised an exception".data

/-- `Timer.__call__`'s wrapper, reduced to its control flow and its
emissions to the timing log: on failure, exactly one error record and the
original exception re-raised; on success, the result and one summary info
record. -/
def Timer_call {α β : Type} (track : Bool) (fname uuid ts : Str)
    (elapsed cpu memch fm : ℚ) (f : α → Except PyExc β) (x : α) :
    Except PyExc β × List EmitRec :=
  match f x with
  | .error e => (.error e, [⟨ts, "ERROR".data, timerErrorMsg fname, fname, uuid⟩])
  | .ok v =>
    (.ok v, [⟨ts, "INFO".data, timerSuccessMsg fname track elapsed cpu memch fm,
      fname, uuid⟩])

/-- One row of the error results store (`_save_error`). -/
structure ErrRow where
  timestamp : Str
  uuid : Str
  functionName : Str
  errorMsg : Str
  argsRepr : List Str
  deriving Repr

/-- The optional sanitizer applied to the exception message. -/
def sanApply (san : Option (Str → Str)) (s : Str) : Str :=
  match san with
  | some g => g s
  | none => s

/-- `ErrorCatcher.__call__`'s wrapper: on failure, one error log record on
the dedicated `error_catcher` channel, one error results row, and the
original exception re-raised; on success, the result untouched with no
emission. -/
def ErrorCatcher_call {α β : Type} (san : Option (Str → Str)) (maxLen : Option ℕ)
    (fname uuid ts : Str) (args : List PyVal) (f : α → Except PyExc β) (x : α) :
    Except PyExc β × List EmitRec × List ErrRow :=
  match f x with
  | .ok v => (.ok v, [], [])
  | .error e =>
    let emsg := sanApply san e.msg
    (.error e,
     [⟨ts, "ERROR".data,
       "Function `".data ++ fname ++ "` raised an exception: ".data ++ emsg,
       fname, uuid⟩],
     [⟨ts, uuid, fname, emsg, args.map (ecSafeSerialize san maxLen)⟩])

/-- A concrete failing exception. -/
def boomExc : PyExc := ⟨"ZeroDivisionError".data, "secret42".data⟩

/-- Counterexample to claim C4 as stated: a failing `Timer`-wrapped call
emits exactly one error record, but that record carries neither the
(sanitized) exception text nor any argument text — only the function name
and correlation id. -/
theorem timer_error_record_lacks_details :
    Timer_call true "f".data "u1".data "t0".data 0 0 0 0
        (fun _ : Unit => (.error boomExc : Except PyExc Unit)) ()
      = (.error boomExc,
         [⟨"t0".data, "ERROR".data, "Function `f` raised an exception".data,
           "f".data, "u1".data⟩]) ∧
    ¬ (sanitizer "secret42".data <:+: timerErrorMsg "f".data) ∧
    ¬ (("secret42".data : Str) <:+: timerErrorMsg "f".data) := by
  refine ⟨by decide, by decide, by decide⟩

/-- Claim C4 (amended): for every invocation of a wrapped unit of work that
raises, exactly one error record is emitted and the original exception
propagates unchanged (same type and message) — the wrapper never swallows
a failure.  For `ErrorCatcher`-wrapped calls the error log record carries
the function name, correlation id and sanitized exception text, and the
error results row additionally carries the sanitized, truncated argument
text; a `Timer`-wrapped call's single error record carries the function
name and correlation id only. -/
theorem error_wrappers_emit_once_and_reraise :
    (∀ (α β : Type) (san : Option (Str → Str)) (maxLen : Option ℕ)
        (fname uuid ts : Str) (args : List PyVal) (f : α → Except PyExc β)
        (x : α) (e : PyExc), f x = .error e →
        ErrorCatcher_call san maxLen fname uuid ts args f x
          = (.error e,
             [⟨ts, "ERROR".data,
               "Function `".data ++ fname ++ "` raised an exception: ".data
                 ++ sanApply san e.msg, fname, uuid⟩],
             [⟨ts, uuid, fname, sanApply san e.msg,
               args.map (ecSafeSerialize san maxLen)⟩])) ∧
    (∀ (α β : Type) (san : Option (Str → Str)) (maxLen : Option ℕ)
        (fname uuid ts : Str) (args : List PyVal) (f : α → Except PyExc β)
        (x : α) (v : β), f x = .ok v →
        ErrorCatcher_call san maxLen fname uuid ts args f x = (.ok v, [], [])) ∧
    (∀ (α β : Type) (track : Bool) (fname uuid ts : Str)
        (elapsed cpu memch fm : ℚ) (f : α → Except PyExc β) (x : α) (e : PyExc),
        f x = .error e →
        Timer_call track fname uuid ts elapsed cpu memch fm f x
          = (.error e, [⟨ts, "ERROR".data, timerErrorMsg fname, fname, uuid⟩])) := by
  refine ⟨?_, ?_, ?_⟩
  · intro α β san maxLen fname uuid ts args f x e h
    simp only [ErrorCatcher_call, h]
  · intro α β san maxLen fname uuid ts args f x v h
    simp only [ErrorCatcher_call, h]
  · intro α β track fname uuid ts elapsed cpu memch fm f x e h
    simp only [Timer_call, h]

theorem error_wrappers_emit_once_and_reraise_witness :
    ErrorCatcher_call (some sanitizer) (some 100) "f".data "u1".data "t0".data
        [.plain "a7".data] (fun _ : Unit => (.error boomExc : Except PyExc Unit)) ()
      = (.error boomExc,
         [⟨"t0".data, "ERROR".data,
           "Function `".data ++ "f".data ++ "` raised an exception: ".data
             ++ sanApply (some sanitizer) boomExc.msg, "f".data, "u1".data⟩],
         [⟨"t0".data, "u1".data, "f".data, sanApply (some sanitizer) boomExc.msg,
           [PyVal.plain "a7".data].map (ecSafeSerialize (some sanitizer) (some 100))⟩]) ∧
    ErrorCatcher_call (some sanitizer) (some 100) "f".data "u2".data "t0".data
        [.plain "a7".data] (fun _ : Unit => (.ok () : Except PyExc Unit)) ()
      = (.ok (), [], []) ∧
    Timer_call false "f".data "u3".data "t0".data 0 0 0 0
        (fun _ : Unit => (.error boomExc : Except PyExc Unit)) ()
      = (.error boomExc,
         [⟨"t0".data, "ERROR".data, timerErrorMsg "f".data, "f".data, "u3".data⟩]) :=
  ⟨error_wrappers_emit_once_and_reraise.1 Unit Unit (some sanitizer) (some 100)
     "f".data "u1".data "t0".data [.plain "a7".data] _ () boomExc rfl,
   error_wrappers_emit_once_and_reraise.2.1 Unit Unit (some sanitizer) (some 100)
     "f".data "u2".data "t0".data [.plain "a7".data] _ () () rfl,
   error_wrappers_emit_once_and_reraise.2.2 Unit Unit false "f".data "u3".data
     "t0".data 0 0 0 0 _ () boomExc rfl⟩

/-! ## Claim C3: the emitted start/end pair round-trips

Forward lemmas: how the greedy grammar parser behaves on a message built
by the `get_metrics_start`/`get_metrics_end` format strings. -/

theorem takeWhile_append_stop {p : Char → Bool} :
    ∀ (a : Str) {b : Char} (r : Str), (∀ c ∈ a, p c = true) → p b = false →
      (a ++ b :: r).takeWhile p = a
  | [], b, r, _, hb => by simp [List.takeWhile_cons, hb]
  | x :: a, b, r, h, hb => by
    have hx : p x = true := h x (List.mem_cons_self _ _)
    have ih := takeWhile_append_stop a r (fun c hc => h c (List.mem_cons_of_mem _ hc)) hb
    simp only [List.cons_append, List.takeWhile_cons, hx, if_true, ih]

theorem dropWhile_append_stop {p : Char → Bool} :
    ∀ (a : Str) {b : Char} (r : Str), (∀ c ∈ a, p c = true) → p b = false →
      (a ++ b :: r).dropWhile p = b :: r
  | [], b, r, _, hb => by simp [List.dropWhile_cons, hb]
  | x :: a, b, r, h, hb => by
    have hx : p x = true := h x (List.mem_cons_self _ _)
    have ih := dropWhile_append_stop a r (fun c hc => h c (List.mem_cons_of_mem _ hc)) hb
    simp only [List.cons_append, List.dropWhile_cons, hx, if_true, ih]

theorem takeWhile_all {p : Char → Bool} :
    ∀ (a : Str), (∀ c ∈ a, p c = true) → a.takeWhile p = a
  | [], _ => rfl
  | x :: a, h => by
    have hx : p x = true := h x (List.mem_cons_self _ _)
    simp only [List.takeWhile_cons, hx, if_true,
      takeWhile_all a (fun c hc => h c (List.mem_cons_of_mem _ hc))]

theorem dropWhile_all {p : Char → Bool} :
    ∀ (a : Str), (∀ c ∈ a, p c = true) → a.dropWhile p = []
  | [], _ => rfl
  | x :: a, h => by
    have hx : p x = true := h x (List.mem_cons_self _ _)
    simp only [List.dropWhile_cons, hx, if_true,
      dropWhile_all a (fun c hc => h c (List.mem_cons_of_mem _ hc))]

theorem chomp_exact {p : Char → Bool} (a : Str) (b : Char) (r : Str)
    (h : ∀ c ∈ a, p c = true) (hne : a ≠ []) (hb : p b = false) :
    chomp p (a ++ b :: r) = some (a, b :: r) := by
  rw [chomp, takeWhile_append_stop a r h hb, dropWhile_append_stop a r h hb]
  cases a with
  | nil => exact absurd rfl hne
  | cons x xs => rfl

theorem chomp_all {p : Char → Bool} (a : Str) (h : ∀ c ∈ a, p c = true)
    (hne : a ≠ []) : chomp p a = some (a, []) := by
  rw [chomp, takeWhile_all a h, dropWhile_all a h]
  cases a with
  | nil => exact absurd rfl hne
  | cons x xs => rfl

/-- Greedy class match stopping at the head of the next literal. -/
theorem chomp_before {p : Char → Bool} (a : Str) (litl : Str) (rest : Str)
    (h1 : ∀ c ∈ a, p c = true) (h2 : a ≠ [])
    (h3 : match litl with
          | [] => False
          | b :: _ => p b = false) :
    chomp p (a ++ (litl ++ rest)) = some (a, litl ++ rest) := by
  cases litl with
  | nil => cases h3
  | cons b u =>
    rw [show (b :: u) ++ rest = b :: (u ++ rest) from rfl]
    exact chomp_exact a b (u ++ rest) h1 h2 h3

theorem lit_append : ∀ (pat rest : Str), lit pat (pat ++ rest) = some rest
  | [], rest => rfl
  | c :: pat, rest => by
    simp only [List.cons_append, lit, if_pos rfl]
    exact lit_append pat rest

theorem mem_padZeros_digits {p : ℕ} {l : Str} (hl : ∀ c ∈ l, c.isDigit = true) :
    ∀ c ∈ padZeros p l, c.isDigit = true := by
  intro c hc
  rcases List.mem_append.mp hc with hc | hc
  · rw [List.eq_of_mem_replicate hc]
    decide
  · exact hl c hc

theorem fmtFixedNN_floatChars (q : ℚ) (prec : ℕ) :
    ∀ c ∈ fmtFixedNN q prec, isFloatChar c = true := by
  intro c hc
  simp only [fmtFixedNN] at hc
  rcases List.mem_append.mp hc with hc | hc
  · simp [isFloatChar, natStr_digits _ c hc]
  · rcases List.mem_cons.mp hc with rfl | hc
    · decide
    · simp [isFloatChar, mem_padZeros_digits (natStr_digits _) c hc]

theorem fmtFixed_floatChars {q : ℚ} (prec : ℕ) (h : 0 ≤ q) :
    ∀ c ∈ fmtFixed q prec, isFloatChar c = true := by
  rw [fmtFixed, if_neg (not_lt.mpr h)]
  exact fmtFixedNN_floatChars q prec

theorem fmtFixed_ne_nil {q : ℚ} (prec : ℕ) (h : 0 ≤ q) : fmtFixed q prec ≠ [] := by
  rw [fmtFixed, if_neg (not_lt.mpr h), fmtFixedNN]
  intro hc
  exact natStr_ne_nil _ (List.append_eq_nil.mp hc).1

/-- `float(...)` succeeds on `digits ++ "." ++ digits` with a nonempty
integer part. -/
theorem parseFloat_intdot (A B : Str) (hA : ∀ c ∈ A, c.isDigit = true)
    (hAne : A ≠ []) (hB : ∀ c ∈ B, c.isDigit = true) :
    (parseFloat (A ++ '.' :: B)).isSome = true := by
  have hstop : (A ++ '.' :: B).takeWhile (·.isDigit) = A :=
    takeWhile_append_stop A B hA (by decide)
  simp only [parseFloat, hstop, List.drop_left]
  rw [if_pos]
  · rfl
  · have h1 : B.all (·.isDigit) = true := List.all_eq_true.mpr hB
    have h2 : A.isEmpty = false := by
      cases A with
      | nil => exact absurd rfl hAne
      | cons c cs => rfl
    rw [h1, h2]
    rfl

/-- `float(...)` succeeds on a `%.pf`-rendered value. -/
theorem parseFloat_fmtFixed_isSome {q : ℚ} (prec : ℕ) (h : 0 ≤ q) :
    (parseFloat (fmtFixed q prec)).isSome = true := by
  rw [fmtFixed, if_neg (not_lt.mpr h), fmtFixedNN]
  exact parseFloat_intdot _ _ (natStr_digits _) (natStr_ne_nil _)
    (mem_padZeros_digits (natStr_digits _))

/-- The values sampled by `get_metrics_start` (`cpu_times` is stored in the
returned dictionary but never rendered into the message, and is omitted). -/
structure StartMetrics where
  func : Str
  id : Str
  wall : ℚ
  perf : ℚ
  cpuPercent : ℚ
  rss : ℕ
  vms : ℕ
  memPercent : ℚ
  threads : ℕ
  fds : ℕ

/-- The values sampled by `get_metrics_end`. -/
structure EndSample where
  wall : ℚ
  perf : ℚ
  cpuPercent : ℚ
  rss : ℕ
  vms : ℕ
  memPercent : ℚ
  threads : ℕ
  fds : ℕ

/-- The message of `get_metrics_start`'s single `logging.info` call:
`"%s: start: wall=%.4f perf=%.4f id=%s cpu=%.2f%% rss=%d vms=%d mem%%=%.2f
threads=%d fds=%d"`. -/
def startMessage (m : StartMetrics) : Str :=
  m.func ++ ": start: wall=".data ++ fmtFixed m.wall 4 ++ " perf=".data
    ++ fmtFixed m.perf 4 ++ " id=".data ++ m.id ++ " cpu=".data
    ++ fmtFixed m.cpuPercent 2 ++ "% rss=".data ++ natStr m.rss ++ " vms=".data
    ++ natStr m.vms ++ " mem%=".data ++ fmtFixed m.memPercent 2 ++ " threads=".data
    ++ natStr m.threads ++ " fds=".data ++ natStr m.fds

/-- The message of `get_metrics_end`'s single `logging.info` call; the id
comes from `metrics_start["id"]` and the duration is
`perf_end - metrics_start["perf_start"]`. -/
def endMessage (m : StartMetrics) (e : EndSample) : Str :=
  m.func ++ ": end: wall=".data ++ fmtFixed e.wall 4 ++ " perf=".data
    ++ fmtFixed e.perf 4 ++ " id=".data ++ m.id ++ " duration=".data
    ++ fmtFixed (qSub e.perf m.perf) 4 ++ "sec cpu=".data
    ++ fmtFixed e.cpuPercent 2 ++ "% rss=".data ++ natStr e.rss ++ " vms=".data
    ++ natStr e.vms ++ " mem%=".data ++ fmtFixed e.memPercent 2 ++ " threads=".data
    ++ natStr e.threads ++ " fds=".data ++ natStr e.fds

/-- The one record `get_metrics_start` emits.  `logging.info` is called
without `extra`, so the formatter's `function`/`uuid` fields fall back to
`"N/A"`; the correlation id travels in the message's `id=` group. -/
def get_metrics_start_emit (m : StartMetrics) (ts : Str) : EmitRec :=
  ⟨ts, "INFO".data, startMessage m, "N/A".data, "N/A".data⟩

/-- The one record `get_metrics_end` emits. -/
def get_metrics_end_emit (m : StartMetrics) (e : EndSample) (ts : Str) : EmitRec :=
  ⟨ts, "INFO".data, endMessage m e, "N/A".data, "N/A".data⟩

theorem split_start_lit : ∀ rest : Str,
    (": start: wall=".data : Str) ++ rest
      = ": ".data ++ ("start".data ++ (": wall=".data ++ rest)) := fun _ => rfl

theorem split_end_lit : ∀ rest : Str,
    (": end: wall=".data : Str) ++ rest
      = ": ".data ++ ("end".data ++ (": wall=".data ++ rest)) := fun _ => rfl

theorem split_sec_lit : ∀ rest : Str,
    ("sec cpu=".data : Str) ++ rest = "sec".data ++ (" cpu=".data ++ rest) :=
  fun _ => rfl

theorem lit_duration_mismatch : ∀ rest : Str,
    lit " duration=".data (" cpu=".data ++ rest) = none := fun _ => rfl

theorem lit_end_not_start : ∀ rest : Str,
    lit "start".data ("end".data ++ rest) = none := fun _ => rfl

theorem matchTail_eval (cpu : Str) (rss vms : ℕ) (mem : Str) (th fds : ℕ)
    (hcpu1 : ∀ c ∈ cpu, isFloatChar c = true) (hcpu2 : cpu ≠ [])
    (hmem1 : ∀ c ∈ mem, isFloatChar c = true) (hmem2 : mem ≠ []) :
    matchTail (" cpu=".data ++ (cpu ++ ("% rss=".data ++ (natStr rss
        ++ (" vms=".data ++ (natStr vms ++ (" mem%=".data ++ (mem
        ++ (" threads=".data ++ (natStr th ++ (" fds=".data ++ natStr fds)))))))))))
      = some (cpu, natStr rss, natStr vms, mem, natStr th, natStr fds) := by
  unfold matchTail
  rw [lit_append " cpu=".data]
  simp only [Option.bind_eq_bind', Option.some_bind']
  rw [chomp_before cpu "% rss=".data _ hcpu1 hcpu2 (by decide)]
  simp only [Option.bind_eq_bind', Option.some_bind']
  rw [lit_append "% rss=".data]
  simp only [Option.bind_eq_bind', Option.some_bind']
  rw [chomp_before (natStr rss) " vms=".data _ (natStr_digits _) (natStr_ne_nil _)
    (by decide)]
  simp only [Option.bind_eq_bind', Option.some_bind']
  rw [lit_append " vms=".data]
  simp only [Option.bind_eq_bind', Option.some_bind']
  rw [chomp_before (natStr vms) " mem%=".data _ (natStr_digits _) (natStr_ne_nil _)
    (by decide)]
  simp only [Option.bind_eq_bind', Option.some_bind']
  rw [lit_append " mem%=".data]
  simp only [Option.bind_eq_bind', Option.some_bind']
  rw [chomp_before mem " threads=".data _ hmem1 hmem2 (by decide)]
  simp only [Option.bind_eq_bind', Option.some_bind']
  rw [lit_append " threads=".data]
  simp only [Option.bind_eq_bind', Option.some_bind']
  rw [chomp_before (natStr th) " fds=".data _ (natStr_digits _) (natStr_ne_nil _)
    (by decide)]
  simp only [Option.bind_eq_bind', Option.some_bind']
  rw [lit_append " fds=".data]
  simp only [Option.bind_eq_bind', Option.some_bind']
  rw [chomp_all (natStr fds) (natStr_digits _) (natStr_ne_nil _)]
  rfl

theorem matchDurTail_no_duration (l : Str) (h : lit " duration=".data l = none) :
    matchDurTail l = (matchTail l).map (fun t => ((none : Option Str), t)) := by
  unfold matchDurTail
  rw [h]
  rfl

theorem matchDurTail_with_duration (dur l : Str)
    (t : Str × Str × Str × Str × Str × Str)
    (hd1 : ∀ c ∈ dur, isFloatChar c = true) (hd2 : dur ≠ [])
    (ht : matchTail (" cpu=".data ++ l) = some t) :
    matchDurTail (" duration=".data ++ (dur ++ ("sec".data ++ (" cpu=".data ++ l))))
      = some (some dur, t) := by
  unfold matchDurTail
  rw [lit_append " duration=".data]
  simp only [Option.bind_eq_bind', Option.some_bind']
  rw [chomp_before dur "sec".data _ hd1 hd2 (by decide)]
  simp only [Option.bind_eq_bind', Option.some_bind']
  rw [lit_append "sec".data]
  simp only [Option.bind_eq_bind', Option.some_bind']
  rw [ht]
  rfl

/-- The grammar parser anchored at position 0 accepts the `get_metrics_start`
message and recovers exactly its fields. -/
theorem matchAt_startMessage (m : StartMetrics)
    (hf1 : m.func ≠ []) (hf2 : ∀ c ∈ m.func, isFuncChar c = true)
    (hi1 : m.id ≠ []) (hi2 : ∀ c ∈ m.id, isIdChar c = true)
    (hw : 0 ≤ m.wall) (hp : 0 ≤ m.perf) (hc : 0 ≤ m.cpuPercent)
    (hm : 0 ≤ m.memPercent) :
    matchAt (startMessage m) = some ⟨m.func, .start, fmtFixed m.wall 4,
      fmtFixed m.perf 4, m.id, none, fmtFixed m.cpuPercent 2, natStr m.rss,
      natStr m.vms, fmtFixed m.memPercent 2, natStr m.threads, natStr m.fds⟩ := by
  unfold matchAt startMessage
  simp only [List.append_assoc]
  rw [chomp_before m.func ": start: wall=".data _ hf2 hf1 (by decide)]
  simp only [Option.bind_eq_bind', Option.some_bind']
  rw [split_start_lit, lit_append ": ".data]
  simp only [Option.bind_eq_bind', Option.some_bind']
  rw [lit_append "start".data]
  simp only [Option.bind_eq_bind', Option.some_bind']
  rw [lit_append ": wall=".data]
  simp only [Option.bind_eq_bind', Option.some_bind']
  rw [chomp_before (fmtFixed m.wall 4) " perf=".data _ (fmtFixed_floatChars 4 hw)
    (fmtFixed_ne_nil 4 hw) (by decide)]
  simp only [Option.bind_eq_bind', Option.some_bind']
  rw [lit_append " perf=".data]
  simp only [Option.bind_eq_bind', Option.some_bind']
  rw [chomp_before (fmtFixed m.perf 4) " id=".data _ (fmtFixed_floatChars 4 hp)
    (fmtFixed_ne_nil 4 hp) (by decide)]
  simp only [Option.bind_eq_bind', Option.some_bind']
  rw [lit_append " id=".data]
  simp only [Option.bind_eq_bind', Option.some_bind']
  rw [chomp_before m.id " cpu=".data _ hi2 hi1 (by decide)]
  simp only [Option.bind_eq_bind', Option.some_bind']
  rw [matchDurTail_no_duration _ (lit_duration_mismatch _)]
  rw [matchTail_eval (fmtFixed m.cpuPercent 2) m.rss m.vms (fmtFixed m.memPercent 2)
    m.threads m.fds (fmtFixed_floatChars 2 hc) (fmtFixed_ne_nil 2 hc)
    (fmtFixed_floatChars 2 hm) (fmtFixed_ne_nil 2 hm)]
  rfl

/-- The grammar parser anchored at position 0 accepts the `get_metrics_end`
message, recovering the phase `end`, the start record's correlation id, and
the duration group. -/
theorem matchAt_endMessage (m : StartMetrics) (e : EndSample)
    (hf1 : m.func ≠ []) (hf2 : ∀ c ∈ m.func, isFuncChar c = true)
    (hi1 : m.id ≠ []) (hi2 : ∀ c ∈ m.id, isIdChar c = true)
    (hw : 0 ≤ e.wall) (hp : 0 ≤ e.perf) (hc : 0 ≤ e.cpuPercent)
    (hm : 0 ≤ e.memPercent) (hd : 0 ≤ qSub e.perf m.perf) :
    matchAt (endMessage m e) = some ⟨m.func, .end', fmtFixed e.wall 4,
      fmtFixed e.perf 4, m.id, some (fmtFixed (qSub e.perf m.perf) 4),
      fmtFixed e.cpuPercent 2, natStr e.rss, natStr e.vms,
      fmtFixed e.memPercent 2, natStr e.threads, natStr e.fds⟩ := by
  unfold matchAt endMessage
  simp only [List.append_assoc]
  rw [chomp_before m.func ": end: wall=".data _ hf2 hf1 (by decide)]
  simp only [Option.bind_eq_bind', Option.some_bind']
  rw [split_end_lit, lit_append ": ".data]
  simp only [Option.bind_eq_bind', Option.some_bind']
  rw [lit_end_not_start, lit_append "end".data]
  simp only [Option.map_some', Option.bind_eq_bind', Option.some_bind']
  rw [lit_append ": wall=".data]
  simp only [Option.bind_eq_bind', Option.some_bind']
  rw [chomp_before (fmtFixed e.wall 4) " perf=".data _ (fmtFixed_floatChars 4 hw)
    (fmtFixed_ne_nil 4 hw) (by decide)]
  simp only [Option.bind_eq_bind', Option.some_bind']
  rw [lit_append " perf=".data]
  simp only [Option.bind_eq_bind', Option.some_bind']
  rw [chomp_before (fmtFixed e.perf 4) " id=".data _ (fmtFixed_floatChars 4 hp)
    (fmtFixed_ne_nil 4 hp) (by decide)]
  simp only [Option.bind_eq_bind', Option.some_bind']
  rw [lit_append " id=".data]
  simp only [Option.bind_eq_bind', Option.some_bind']
  rw [chomp_before m.id " duration=".data _ hi2 hi1 (by decide)]
  simp only [Option.bind_eq_bind', Option.some_bind']
  rw [split_sec_lit]
  rw [matchDurTail_with_duration (fmtFixed (qSub e.perf m.perf) 4) _ _
    (fmtFixed_floatChars 4 hd) (fmtFixed_ne_nil 4 hd)
    (matchTail_eval (fmtFixed e.cpuPercent 2) e.rss e.vms (fmtFixed e.memPercent 2)
      e.threads e.fds (fmtFixed_floatChars 2 hc) (fmtFixed_ne_nil 2 hc)
      (fmtFixed_floatChars 2 hm) (fmtFixed_ne_nil 2 hm))]
  rfl

theorem matchSearch_of_matchAt {l : Str} {g : MatchGroups} (hne : l ≠ [])
    (h : matchAt l = some g) : matchSearch l = some g := by
  cases l with
  | nil => exact absurd rfl hne
  | cons c rest =>
    rw [matchSearch, h]

theorem chomp_suffix {p : Char → Bool} {l a r : Str} (h : chomp p l = some (a, r)) :
    r <:+ l := by
  rw [chomp] at h
  cases htw : l.takeWhile p with
  | nil => rw [htw] at h; cases h
  | cons c cs =>
    rw [htw] at h
    injection h with h
    injection h with h1 h2
    exact h2 ▸ List.dropWhile_suffix p

theorem lit_suffix : ∀ {pat l r : Str}, lit pat l = some r → r <:+ l := by
  intro pat
  induction pat with
  | nil =>
    intro l r h
    injection h with h
    exact h ▸ List.suffix_refl l
  | cons c cs ih =>
    intro l r h
    cases l with
    | nil => cases h
    | cons x xs =>
      by_cases hx : x = c
      · simp only [lit, if_pos hx] at h
        exact (ih h).trans (List.suffix_cons x xs)
      · simp only [lit, if_neg hx] at h
        cases h

theorem lit_mem_pat : ∀ {pat l r : Str}, lit pat l = some r → ∀ c ∈ pat, c ∈ l := by
  intro pat
  induction pat with
  | nil =>
    intro l r _ c hc
    cases hc
  | cons p ps ih =>
    intro l r h c hc
    cases l with
    | nil => cases h
    | cons x xs =>
      by_cases hx : x = p
      · simp only [lit, if_pos hx] at h
        rcases List.mem_cons.mp hc with rfl | hc
        · exact hx ▸ List.mem_cons_self x xs
        · exact List.mem_cons_of_mem x (ih h c hc)
      · simp only [lit, if_neg hx] at h
        cases h

/-- Every message the grammar accepts contains an equals sign (the pattern
consumes the literal `": wall="`). -/
theorem matchAt_some_mem_eq {l : Str} {g : MatchGroups} (h : matchAt l = some g) :
    ('=' : Char) ∈ l := by
  simp only [matchAt, Option.bind_eq_bind, Option.bind_eq_some] at h
  obtain ⟨⟨func, l1⟩, h1, l2, h2, ⟨ph, l3⟩, h3, l4, h4, -⟩ := h
  have hs3 : l3 <:+ l2 := by
    cases hs : lit "start".data l2 with
    | some l' =>
      rw [hs] at h3
      injection h3 with h3
      injection h3 with _ h3b
      exact h3b ▸ lit_suffix hs
    | none =>
      rw [hs] at h3
      obtain ⟨l', hl', he⟩ := Option.map_eq_some'.mp h3
      injection he with _ he2
      exact he2 ▸ lit_suffix hl'
  have hsub : l3 <:+ l :=
    (hs3.trans (lit_suffix h2)).trans (chomp_suffix h1)
  exact hsub.subset (lit_mem_pat h4 '=' (by decide))

theorem matchSearch_none_of_no_eq : ∀ (l : Str), ('=' : Char) ∉ l →
    matchSearch l = none := by
  intro l
  induction l with
  | nil => intro _; rfl
  | cons c rest ih =>
    intro h
    rw [matchSearch]
    cases hm : matchAt (c :: rest) with
    | some g => exact absurd (matchAt_some_mem_eq hm) h
    | none => exact ih (fun hc => h (List.mem_cons_of_mem c hc))

theorem fmtFixed_no_eq (q : ℚ) (p : ℕ) : ('=' : Char) ∉ fmtFixed q p := by
  intro h
  rw [fmtFixed] at h
  by_cases hq : q < 0
  · rw [if_pos hq] at h
    rcases List.mem_cons.mp h with h | h
    · cases h
    · have := fmtFixedNN_floatChars (-q) p '=' h
      simp [isFloatChar] at this
  · rw [if_neg hq] at h
    have := fmtFixedNN_floatChars q p '=' h
    simp [isFloatChar] at this

/-- The summary message of a successful `Timer`-wrapped call contains no
equals sign when the function name contains none. -/
theorem timerSuccessMsg_no_eq (fname : Str) (track : Bool)
    (elapsed cpu memch fm : ℚ) (h : ('=' : Char) ∉ fname) :
    ('=' : Char) ∉ timerSuccessMsg fname track elapsed cpu memch fm := by
  intro hc
  simp only [timerSuccessMsg, List.append_assoc, List.mem_append] at hc
  rcases hc with hc | hc | hc | hc | hc | hc
  · exact absurd hc (by decide)
  · exact h hc
  · exact absurd hc (by decide)
  · exact fmtFixed_no_eq elapsed 4 hc
  · exact absurd hc (by decide)
  · by_cases htr : track
    · rw [if_pos htr] at hc
      simp only [List.append_assoc, List.mem_append] at hc
      rcases hc with hc | hc | hc | hc | hc | hc | hc
      · exact absurd hc (by decide)
      · exact fmtFixed_no_eq cpu 4 hc
      · exact absurd hc (by decide)
      · exact fmtFixed_no_eq memch 4 hc
      · exact absurd hc (by decide)
      · exact fmtFixed_no_eq fm 4 hc
      · exact absurd hc (by decide)
    · rw [if_neg htr] at hc
      cases hc

theorem metrics_pair_reconstruct (m : StartMetrics) (e : EndSample)
    (ts1 ts2 : Str) (t1 t2 st et : ℤ)
    (hf1 : m.func ≠ []) (hf2 : ∀ c ∈ m.func, isFuncChar c = true)
    (hi1 : m.id ≠ []) (hi2 : ∀ c ∈ m.id, isIdChar c = true)
    (hw : 0 ≤ m.wall) (hp : 0 ≤ m.perf) (hc : 0 ≤ m.cpuPercent)
    (hm : 0 ≤ m.memPercent)
    (hw' : 0 ≤ e.wall) (hp' : 0 ≤ e.perf) (hc' : 0 ≤ e.cpuPercent)
    (hm' : 0 ≤ e.memPercent) (hd : 0 ≤ qSub e.perf m.perf)
    (ht1 : parseTimestamp ts1 = some t1) (ha1 : st ≤ t1) (hb1 : t1 ≤ et)
    (ht2 : parseTimestamp ts2 = some t2) (ha2 : st ≤ t2) (hb2 : t2 ≤ et) :
    (∃ gS, matchSearch (get_metrics_start_emit m ts1).message = some gS
        ∧ gS.phase = .start ∧ gS.func = m.func ∧ gS.id = m.id)
    ∧ (∃ gE, matchSearch (get_metrics_end_emit m e ts2).message = some gE
        ∧ gE.phase = .end' ∧ gE.func = m.func ∧ gE.id = m.id)
    ∧ (∃ rec, parse_log_lines [(get_metrics_start_emit m ts1).toLogLine,
          (get_metrics_end_emit m e ts2).toLogLine] st et
        = .ok ([rec], [(get_metrics_start_emit m ts1).toLogLine,
          (get_metrics_end_emit m e ts2).toLogLine])
        ∧ rec.function = m.func ∧ rec.callId = m.id
        ∧ rec.startTime = t1 ∧ rec.endTime = t2) := by
  have hSne : startMessage m ≠ [] := by
    cases hfm : m.func with
    | nil => exact absurd hfm hf1
    | cons c cs =>
      unfold startMessage
      rw [hfm]
      simp
  have hEne : endMessage m e ≠ [] := by
    cases hfm : m.func with
    | nil => exact absurd hfm hf1
    | cons c cs =>
      unfold endMessage
      rw [hfm]
      simp
  have hS : matchSearch (startMessage m) = some ⟨m.func, .start, fmtFixed m.wall 4,
      fmtFixed m.perf 4, m.id, none, fmtFixed m.cpuPercent 2, natStr m.rss,
      natStr m.vms, fmtFixed m.memPercent 2, natStr m.threads, natStr m.fds⟩ :=
    matchSearch_of_matchAt hSne (matchAt_startMessage m hf1 hf2 hi1 hi2 hw hp hc hm)
  have hE : matchSearch (endMessage m e) = some ⟨m.func, .end', fmtFixed e.wall 4,
      fmtFixed e.perf 4, m.id, some (fmtFixed (qSub e.perf m.perf) 4),
      fmtFixed e.cpuPercent 2, natStr e.rss, natStr e.vms,
      fmtFixed e.memPercent 2, natStr e.threads, natStr e.fds⟩ :=
    matchSearch_of_matchAt hEne
      (matchAt_endMessage m e hf1 hf2 hi1 hi2 hw' hp' hc' hm' hd)
  obtain ⟨wS, hq1⟩ := Option.isSome_iff_exists.mp (parseFloat_fmtFixed_isSome 4 hw)
  obtain ⟨pS, hq2⟩ := Option.isSome_iff_exists.mp (parseFloat_fmtFixed_isSome 4 hp)
  obtain ⟨cS, hq3⟩ := Option.isSome_iff_exists.mp (parseFloat_fmtFixed_isSome 2 hc)
  obtain ⟨mS, hq4⟩ := Option.isSome_iff_exists.mp (parseFloat_fmtFixed_isSome 2 hm)
  obtain ⟨wE, hq5⟩ := Option.isSome_iff_exists.mp (parseFloat_fmtFixed_isSome 4 hw')
  obtain ⟨pE, hq6⟩ := Option.isSome_iff_exists.mp (parseFloat_fmtFixed_isSome 4 hp')
  obtain ⟨cE, hq7⟩ := Option.isSome_iff_exists.mp (parseFloat_fmtFixed_isSome 2 hc')
  obtain ⟨mE, hq8⟩ := Option.isSome_iff_exists.mp (parseFloat_fmtFixed_isSome 2 hm')
  obtain ⟨dE, hq9⟩ := Option.isSome_iff_exists.mp (parseFloat_fmtFixed_isSome 4 hd)
  have htpS : toParsed ⟨m.func, .start, fmtFixed m.wall 4, fmtFixed m.perf 4, m.id,
      none, fmtFixed m.cpuPercent 2, natStr m.rss, natStr m.vms,
      fmtFixed m.memPercent 2, natStr m.threads, natStr m.fds⟩ t1
      = .ok ⟨wS, pS, cS, digitsVal (natStr m.rss), digitsVal (natStr m.vms), mS,
          digitsVal (natStr m.threads), digitsVal (natStr m.fds), t1, none⟩ := by
    simp only [toParsed, floatOf]
    rw [hq1, hq2, hq3, hq4]
    rfl
  have htpE : toParsed ⟨m.func, .end', fmtFixed e.wall 4, fmtFixed e.perf 4, m.id,
      some (fmtFixed (qSub e.perf m.perf) 4), fmtFixed e.cpuPercent 2,
      natStr e.rss, natStr e.vms, fmtFixed e.memPercent 2, natStr e.threads,
      natStr e.fds⟩ t2
      = .ok ⟨wE, pE, cE, digitsVal (natStr e.rss), digitsVal (natStr e.vms), mE,
          digitsVal (natStr e.threads), digitsVal (natStr e.fds), t2, some dE⟩ := by
    simp only [toParsed, floatOf]
    rw [hq5, hq6, hq7, hq8, hq9]
    rfl
  have c1 : (decide (st ≤ t1) && decide (t1 ≤ et)) = true := by simp [ha1, hb1]
  have c2 : (decide (st ≤ t2) && decide (t2 ≤ et)) = true := by simp [ha2, hb2]
  have h0 : filterWindow st et ([] : List LogLine) = .ok [] := rfl
  have h2 : filterWindow st et [(⟨ts2, endMessage m e⟩ : LogLine)]
      = .ok [⟨ts2, endMessage m e⟩] := by
    rw [filterWindow]
    dsimp only
    rw [ht2]
    dsimp only
    rw [h0, except_ok_bind, if_pos c2]
  have hfw : filterWindow st et
      [(⟨ts1, startMessage m⟩ : LogLine), ⟨ts2, endMessage m e⟩]
      = .ok [⟨ts1, startMessage m⟩, ⟨ts2, endMessage m e⟩] := by
    rw [filterWindow]
    dsimp only
    rw [ht1]
    dsimp only
    rw [h2, except_ok_bind, if_pos c1]
  have hbg : buildGroups []
      [(⟨ts1, startMessage m⟩ : LogLine), ⟨ts2, endMessage m e⟩]
      = .ok [((m.func, m.id),
          (some (⟨wS, pS, cS, digitsVal (natStr m.rss), digitsVal (natStr m.vms),
            mS, digitsVal (natStr m.threads), digitsVal (natStr m.fds), t1,
            none⟩ : ParsedEntry),
           some (⟨wE, pE, cE, digitsVal (natStr e.rss), digitsVal (natStr e.vms),
            mE, digitsVal (natStr e.threads), digitsVal (natStr e.fds), t2,
            some dE⟩ : ParsedEntry)))] := by
    rw [buildGroups]
    dsimp only
    rw [hS]
    dsimp only
    rw [ht1]
    dsimp only
    rw [htpS, except_ok_bind]
    dsimp only [updateGroups, setPhase]
    rw [buildGroups]
    dsimp only
    rw [hE]
    dsimp only
    rw [ht2]
    dsimp only
    rw [htpE, except_ok_bind]
    rw [updateGroups, if_pos rfl]
    dsimp only [setPhase]
    rw [buildGroups]
  refine ⟨⟨_, hS, rfl, rfl, rfl⟩, ⟨_, hE, rfl, rfl, rfl⟩,
    ⟨mkRecord (m.func, m.id)
      ⟨wS, pS, cS, digitsVal (natStr m.rss), digitsVal (natStr m.vms), mS,
        digitsVal (natStr m.threads), digitsVal (natStr m.fds), t1, none⟩
      ⟨wE, pE, cE, digitsVal (natStr e.rss), digitsVal (natStr e.vms), mE,
        digitsVal (natStr e.threads), digitsVal (natStr e.fds), t2, some dE⟩,
      ?_, rfl, rfl, rfl, rfl⟩⟩
  dsimp only [get_metrics_start_emit, get_metrics_end_emit, EmitRec.toLogLine]
  rw [parse_log_lines]
  rw [hfw, except_ok_bind, hbg, except_ok_bind]
  rfl

theorem timer_success_single_nongrammar {α β : Type} (track : Bool)
    (fname uuid ts : Str) (elapsed cpu memch fm : ℚ)
    (f : α → Except PyExc β) (x : α) (v : β)
    (hne : ('=' : Char) ∉ fname) (hok : f x = .ok v) :
    (Timer_call track fname uuid ts elapsed cpu memch fm f x).1 = .ok v
    ∧ (Timer_call track fname uuid ts elapsed cpu memch fm f x).2.length = 1
    ∧ ∀ r ∈ (Timer_call track fname uuid ts elapsed cpu memch fm f x).2,
        matchSearch r.message = none := by
  rw [Timer_call, hok]
  refine ⟨rfl, rfl, ?_⟩
  intro r hr
  dsimp only at hr
  rcases List.mem_singleton.mp hr with rfl
  exact matchSearch_none_of_no_eq _
    (timerSuccessMsg_no_eq fname track elapsed cpu memch fm hne)

/-- **C3** (amended).  A `get_metrics_start`/`get_metrics_end` pair emits
exactly one start and one end record (each helper logs exactly once), both
messages match the reconstruction grammar with the same correlation id taken
from `metrics_start["id"]`, and `parse_log_lines` on the two emitted lines
yields exactly one `CallRecord` carrying that function and id.  A successful
`Timer`-wrapped call, by contrast, emits a single summary record that the
reconstruction grammar does not match at all, so no `CallRecord` can be
reconstructed from it. -/
theorem metrics_roundtrip_and_timer_summary :
    (∀ (m : StartMetrics) (e : EndSample) (ts1 ts2 : Str) (t1 t2 st et : ℤ),
      m.func ≠ [] → (∀ c ∈ m.func, isFuncChar c = true) →
      m.id ≠ [] → (∀ c ∈ m.id, isIdChar c = true) →
      0 ≤ m.wall → 0 ≤ m.perf → 0 ≤ m.cpuPercent → 0 ≤ m.memPercent →
      0 ≤ e.wall → 0 ≤ e.perf → 0 ≤ e.cpuPercent → 0 ≤ e.memPercent →
      0 ≤ qSub e.perf m.perf →
      parseTimestamp ts1 = some t1 → st ≤ t1 → t1 ≤ et →
      parseTimestamp ts2 = some t2 → st ≤ t2 → t2 ≤ et →
      (∃ gS, matchSearch (get_metrics_start_emit m ts1).message = some gS
          ∧ gS.phase = .start ∧ gS.func = m.func ∧ gS.id = m.id)
      ∧ (∃ gE, matchSearch (get_metrics_end_emit m e ts2).message = some gE
          ∧ gE.phase = .end' ∧ gE.func = m.func ∧ gE.id = m.id)
      ∧ (∃ rec, parse_log_lines [(get_metrics_start_emit m ts1).toLogLine,
            (get_metrics_end_emit m e ts2).toLogLine] st et
          = .ok ([rec], [(get_metrics_start_emit m ts1).toLogLine,
            (get_metrics_end_emit m e ts2).toLogLine])
          ∧ rec.function = m.func ∧ rec.callId = m.id
          ∧ rec.startTime = t1 ∧ rec.endTime = t2))
    ∧ (∀ (α β : Type) (track : Bool) (fname uuid ts : Str)
        (elapsed cpu memch fm : ℚ) (f : α → Except PyExc β) (x : α) (v : β),
        ('=' : Char) ∉ fname → f x = .ok v →
        (Timer_call track fname uuid ts elapsed cpu memch fm f x).1 = .ok v
        ∧ (Timer_call track fname uuid ts elapsed cpu memch fm f x).2.length = 1
        ∧ ∀ r ∈ (Timer_call track fname uuid ts elapsed cpu memch fm f x).2,
            matchSearch r.message = none) :=
  ⟨fun m e ts1 ts2 t1 t2 st et hf1 hf2 hi1 hi2 hw hp hc hm hw' hp' hc' hm' hd
      ht1 ha1 hb1 ht2 ha2 hb2 =>
    metrics_pair_reconstruct m e ts1 ts2 t1 t2 st et hf1 hf2 hi1 hi2 hw hp hc hm
      hw' hp' hc' hm' hd ht1 ha1 hb1 ht2 ha2 hb2,
   fun _ _ track fname uuid ts elapsed cpu memch fm f x v hne hok =>
    timer_success_single_nongrammar track fname uuid ts elapsed cpu memch fm
      f x v hne hok⟩

/-- A successful `Timer`-wrapped call emits exactly one record — not a
start/end pair — its summary message never matches the reconstruction
grammar, and `parse_log_lines` on the emitted line raises `KeyError`
instead of yielding a `CallRecord`: the C3 claim fails for Timer-wrapped
calls. -/
theorem timer_roundtrip_fails :
    (Timer_call false "g".data "u".data "2024-01-01 00:00:00,000000".data
        (Rat.divInt 1 1) (Rat.divInt 1 1) (Rat.divInt 1 1) (Rat.divInt 1 1)
        (fun _ : ℕ => (Except.ok 0 : Except PyExc ℕ)) 0).2.map EmitRec.toLogLine
      = [⟨"2024-01-01 00:00:00,000000".data,
          timerSuccessMsg "g".data false (Rat.divInt 1 1) (Rat.divInt 1 1)
            (Rat.divInt 1 1) (Rat.divInt 1 1)⟩]
    ∧ parse_log_lines
        ((Timer_call false "g".data "u".data "2024-01-01 00:00:00,000000".data
            (Rat.divInt 1 1) (Rat.divInt 1 1) (Rat.divInt 1 1) (Rat.divInt 1 1)
            (fun _ : ℕ => (Except.ok 0 : Except PyExc ℕ)) 0).2.map
          EmitRec.toLogLine)
        63839663000000000 63839665000000000 = .error .keyError := by
  decide

/-- Concrete start-side sample for the C3 witness. -/
def mW3 : StartMetrics :=
  ⟨"f".data, "abc".data, Rat.divInt 1 1, Rat.divInt 1 1, Rat.divInt 1 1,
    1000, 2000, Rat.divInt 5 1, 2, 10⟩

/-- Concrete end-side sample for the C3 witness. -/
def eW3 : EndSample :=
  ⟨Rat.divInt 2 1, Rat.divInt 5 2, Rat.divInt 1 1, 1000, 2000,
    Rat.divInt 5 1, 2, 10⟩

theorem metrics_roundtrip_and_timer_summary_witness :
    (∃ rec, parse_log_lines
        [(get_metrics_start_emit mW3 "2024-01-01 00:00:00,000000".data).toLogLine,
         (get_metrics_end_emit mW3 eW3 "2024-01-01 00:00:01,000000".data).toLogLine]
        63839663000000000 63839665000000000
      = .ok ([rec],
        [(get_metrics_start_emit mW3 "2024-01-01 00:00:00,000000".data).toLogLine,
         (get_metrics_end_emit mW3 eW3 "2024-01-01 00:00:01,000000".data).toLogLine])
      ∧ rec.function = mW3.func ∧ rec.callId = mW3.id
      ∧ rec.startTime = 63839664000000000 ∧ rec.endTime = 63839664001000000)
    ∧ (Timer_call false "g".data "u".data "2024-01-01 00:00:02,000000".data
        (Rat.divInt 1 1) (Rat.divInt 1 1) (Rat.divInt 1 1) (Rat.divInt 1 1)
        (fun _ : ℕ => (Except.ok 0 : Except PyExc ℕ)) 0).2.length = 1 :=
  ⟨(metrics_roundtrip_and_timer_summary.1 mW3 eW3
      "2024-01-01 00:00:00,000000".data "2024-01-01 00:00:01,000000".data
      63839664000000000 63839664001000000 63839663000000000 63839665000000000
      (by decide) (by decide) (by decide) (by decide)
      (by decide) (by decide) (by decide) (by decide)
      (by decide) (by decide) (by decide) (by decide)
      (by decide)
      (by decide) (by decide) (by decide)
      (by decide) (by decide) (by decide)).2.2,
   (metrics_roundtrip_and_timer_summary.2 ℕ ℕ false "g".data "u".data
      "2024-01-01 00:00:02,000000".data
      (Rat.divInt 1 1) (Rat.divInt 1 1) (Rat.divInt 1 1) (Rat.divInt 1 1)
      (fun _ : ℕ => (Except.ok 0 : Except PyExc ℕ)) 0 0
      (by decide) rfl).2.1⟩
